import Mathlib

/-!
Verification of the Substrate metadata generation stage (`src/abi/substrate.rs`).

The development shallowly embeds the Rust code: the `scale_info` portable
type vocabulary, the `PortableRegistry`, the resolution cache, the recursive
`resolve_ast` translator and the `gen_project` pipeline become Lean
definitions.  Rust's `&mut` state (registry, cache) is threaded explicitly;
panics (`unreachable!`, failed `unwrap`s, out-of-bounds indexing) become
`Option.none`; general recursion is made total with an explicit fuel
parameter (`none` on fuel exhaustion), which models the call stack only and
is not part of the source semantics.
-/

namespace Substrate

/-! ## The scale-info side: portable types and the registry -/

/-- `scale_info::TypeDefPrimitive`, restricted to the kinds this backend emits. -/
inductive TypeDefPrimitive
  | bool
  | str
  | u8
  | u16
  | u32
  | u64
  | u128
  | u256
  | i8
  | i16
  | i32
  | i64
  | i128
  | i256
deriving DecidableEq, Repr

/-- `scale_info::Field<PortableForm>`: `ty` is the referenced registry id. -/
structure Field where
  name : Option String
  ty : Nat
  type_name : Option String
  docs : List String
deriving DecidableEq, Repr

/-- `scale_info::Variant<PortableForm>`.  `index` is the `u8` discriminant. -/
structure Variant where
  name : String
  fields : List Field
  index : Nat
  docs : List String
deriving DecidableEq, Repr

/-- `scale_info::TypeDef<PortableForm>`, the shapes this backend constructs.
`array` carries the `u32` length and the element id; `sequence` and the other
shapes carry referenced registry ids. -/
inductive TypeDef
  | primitive (p : TypeDefPrimitive)
  | composite (fields : List Field)
  | array (len : Nat) (type_param : Nat)
  | sequence (type_param : Nat)
  | variant (variants : List Variant)
deriving DecidableEq, Repr

/-- `scale_info::Type<PortableForm>`.  In `substrate.rs` the `path`,
`type_params` and `docs` components are always `Default::default()`; they are
kept so that structural equality ranges over the same four fields as in the
source. -/
structure ScaleType where
  path : List String
  type_params : List String
  type_def : TypeDef
  docs : List String
deriving DecidableEq, Repr

/-- `scale_info::registry::PortableType`: a registry entry with its id. -/
structure PortableType where
  id : Nat
  ty : ScaleType
deriving DecidableEq, Repr

/-- `scale_info::PortableRegistry`, built manually by `gen_project`. -/
structure PortableRegistry where
  types : List PortableType
deriving DecidableEq, Repr

/-- `get_or_register_ty`: return the first structurally equal entry if one is
present, otherwise append a new entry whose id is the current length
(`type_id starts from 0`). -/
def get_or_register_ty (ty : ScaleType) (registry : PortableRegistry) :
    PortableType × PortableRegistry :=
  match registry.types.find? (fun e => e.ty = ty) with
  | some t => (t, registry)
  | none =>
    let id := registry.types.length
    let pty : PortableType := { id := id, ty := ty }
    (pty, { types := registry.types ++ [pty] })

/-! ## The ast side: source types and the namespace -/

/-- `ast::ArrayLength`; the fixed case carries a `BigInt`. -/
inductive ArrayLength
  | fixed (d : Int)
  | dynamic
deriving DecidableEq, Repr

/-- `ast::Type`, restricted to the constructors `resolve_ast` matches; every
other constructor of the source enum falls into the `unreachable!()` arm,
represented here by `unsupported`. -/
inductive AstType
  | address (payable : Bool)
  | contract (no : Nat)
  | bool
  | int (n : Nat)
  | uint (n : Nat)
  | string
  | array (elem : AstType) (dims : List ArrayLength)
  | bytes (n : Nat)
  | dynamicBytes
  | struct (no : Nat)
  | enum (no : Nat)
  | ref (ty : AstType)
  | storageRef (immutable : Bool) (ty : AstType)
  | internalFunction
  | externalFunction
  | userType (no : Nat)
  | unsupported
deriving DecidableEq, Repr

/-- A named struct field, as obtained from `StructDecl.fields` via
`f.name_as_str()`. -/
structure StructField where
  name : String
  ty : AstType
deriving DecidableEq, Repr

/-- A struct definition, as returned by `s.definition(ns)`. -/
structure StructDecl where
  fields : List StructField
deriving DecidableEq, Repr

/-- `ast::EnumDecl`, reduced to its `values` map: an ordered association of
variant name to discriminant (the source `IndexMap<String, (Loc, usize)>`
with the location dropped). -/
structure EnumDecl where
  values : List (String × Nat)
deriving DecidableEq, Repr

/-- A `using ... for` user type declaration; `resolve_ast` only reads its
underlying type. -/
structure UserTypeDecl where
  ty : AstType
deriving DecidableEq, Repr

/-- `ast::Parameter`: an optional identifier and a type.
`name_as_str()` renders a missing identifier as the empty string. -/
structure Parameter where
  id : Option String
  ty : AstType
deriving DecidableEq, Repr

def Parameter.name_as_str (p : Parameter) : String := p.id.getD ""

/-- `ast::Mutability`. -/
inductive Mutability
  | payable
  | nonpayable
  | view
  | pureM
deriving DecidableEq, Repr

/-- `pt::Visibility`. -/
inductive Visibility
  | public
  | external
  | internal
  | private_vis
deriving DecidableEq, Repr

/-- `pt::FunctionTy`. -/
inductive FunctionTy
  | function
  | constructor
  | fallback
  | receive
  | modifier
deriving DecidableEq, Repr

/-- `ast::Function`, reduced to the fields `gen_project` reads.  `selector`
is the externally computed selector byte string; `docs` is the already
rendered `render(&f.tags)` string (the tag renderer is an external
collaborator). -/
structure Function where
  name : String
  mutability : Mutability
  visibility : Visibility
  ty : FunctionTy
  contract_no : Option Nat
  params : List Parameter
  returns : List Parameter
  selector : List Nat
  docs : String
deriving DecidableEq, Repr

def Function.is_constructor (f : Function) : Bool := f.ty = FunctionTy.constructor

/-- One entry of a contract's storage layout: the slot (a non-negative
`BigInt`), the variable it belongs to and the type to resolve. -/
structure LayoutVar where
  contract_no : Nat
  var_no : Nat
  slot : Nat
  ty : AstType
deriving DecidableEq, Repr

/-- A contract storage variable, reduced to the fields the layout builder
reads. -/
structure Variable where
  name : String
  ty : AstType
deriving DecidableEq, Repr

/-- An event field (`ast::Parameter` plus its `indexed` flag). -/
structure EventField where
  name : String
  ty : AstType
  indexed : Bool
deriving DecidableEq, Repr

/-- `ast::EventDecl`, reduced to what `e_to_evt` reads. -/
structure EventDecl where
  name : String
  fields : List EventField
  docs : String
deriving DecidableEq, Repr

/-- `ast::Contract`, reduced to what `gen_project` reads.  `all_functions`
is the ordered key list of the source map (an insertion-ordered map, so
iteration order is the declaration order). -/
structure Contract where
  name : String
  layout : List LayoutVar
  -- the source field is named `variables`, a Lean command keyword
  vars : List Variable
  functions : List Nat
  all_functions : List Nat
  default_constructor : Option Function
  sends_events : List Nat
  is_library : Bool
  docs : String
deriving DecidableEq, Repr

/-- `ast::Namespace`, reduced to what the backend reads.
Modelled from the spec: `contains_mapping` and `fits_in_memory` are the
`ast::Type` predicates "the type transitively contains an unbounded mapping
type" and "the resolved in-memory size is within the representable-size
bound"; their implementations live in the semantic-analysis stage, which is
not part of this source tree, so they are carried as abstract predicates. -/
structure Namespace where
  address_length : Nat
  enums : List EnumDecl
  structs : List StructDecl
  user_types : List UserTypeDecl
  contracts : List Contract
  functions : List Function
  events : List EventDecl
  contains_mapping : AstType → Bool
  fits_in_memory : AstType → Bool

/-- `type Cache = HashMap<ast::Type, PortableType>`, modelled as an
association list; `cacheGet` is `cache.get(ty)`. -/
abbrev Cache := List (AstType × PortableType)

def cacheGet (cache : Cache) (ty : AstType) : Option PortableType :=
  (cache.find? (fun e => e.1 = ty)).map (·.2)

/-! ## Integer primitives -/

/-- Search loop for `next_power_of_two`: starting at exponent `k`, return
the first power of two that is at least `n`, giving up (and returning the
current power) when the fuel runs out. -/
def npotAux (n : Nat) : Nat → Nat → Nat
  | 0, k => 2 ^ k
  | fuel + 1, k => if n ≤ 2 ^ k then 2 ^ k else npotAux n fuel (k + 1)

/-- Models Rust's `u16::next_power_of_two`: the least power of two that is
greater than or equal to `n` (and `1` for `n = 0`).  Since `n < 2 ^ n`, a
fuel of `n` always suffices for the search. -/
def next_power_of_two (n : Nat) : Nat := npotAux n n 0

/-- The `match scalety.as_str()` table of `int_to_ty`: which widths have a
primitive, per signedness.  Strings such as `"u24"` or `"u512"` fall into
the `unreachable!()` arm, modelled as `none`. -/
def prim_of_scalety (signed : Bool) (w : Nat) : Option TypeDefPrimitive :=
  match signed, w with
  | false, 8 => some .u8
  | false, 16 => some .u16
  | false, 32 => some .u32
  | false, 64 => some .u64
  | false, 128 => some .u128
  | false, 256 => some .u256
  | true, 8 => some .i8
  | true, 16 => some .i16
  | true, 32 => some .i32
  | true, 64 => some .i64
  | true, 128 => some .i128
  | true, 256 => some .i256
  | _, _ => none

/-- `int_to_ty`: widen the width to the next power of two, map it to a
primitive kind, register the primitive and return it (the registration's
result is discarded by the source, only the registry mutation is kept). -/
def int_to_ty (ty : AstType) (registry : PortableRegistry) :
    Option (ScaleType × PortableRegistry) :=
  let scalety : Option (Bool × Nat) :=
    match ty with
    | .uint n => some (false, next_power_of_two n)
    | .int n => some (true, next_power_of_two n)
    | _ => none
  match scalety with
  | none => none
  | some (signed, w) =>
    match prim_of_scalety signed w with
    | none => none
    | some p =>
      let sty : ScaleType :=
        { path := [], type_params := [], type_def := .primitive p, docs := [] }
      let (_, registry) := get_or_register_ty sty registry
      some (sty, registry)

/-- `primitive_to_ty`: bool and string are direct primitives, integers go
through `int_to_ty`, everything else is the `unreachable!("non primitive
types")` arm. -/
def primitive_to_ty (ty : AstType) (registry : PortableRegistry) :
    Option (ScaleType × PortableRegistry) :=
  match ty with
  | .int _ | .uint _ => int_to_ty ty registry
  | .bool =>
    some ({ path := [], type_params := [], type_def := .primitive .bool, docs := [] },
      registry)
  | .string =>
    some ({ path := [], type_params := [], type_def := .primitive .str, docs := [] },
      registry)
  | _ => none

/-! ## resolve_ast -/

/-- `BigInt::from(*n as i8)` for a `u8` value `n`: the `i8` cast reinterprets
values from 128 upward as negative. -/
def i8_cast (n : Nat) : Int :=
  if n % 256 < 128 then ((n % 256 : Nat) : Int) else ((n % 256 : Nat) : Int) - 256

/-- `BigInt::to_u32().unwrap()`, as an option: defined exactly on
`0 ≤ d < 2^32`. -/
def bigint_to_u32 (d : Int) : Option Nat :=
  if 0 ≤ d ∧ d < 2 ^ 32 then some d.toNat else none

/-- The dimension loop of the `ast::Type::Array` arm of `resolve_ast`: wrap
the already resolved element type once per dimension, a fixed dimension
producing an `Array` entry and a dynamic one a `Sequence` entry, registering
each wrapper. -/
def wrapDims : List ArrayLength → PortableType → PortableRegistry →
    Option (PortableType × PortableRegistry)
  | [], ty, registry => some (ty, registry)
  | ArrayLength.fixed d :: rest, ty, registry =>
    match bigint_to_u32 d with
    | none => none
    | some len =>
      let (ty', registry') := get_or_register_ty
        { path := [], type_params := [], type_def := .array len ty.id, docs := [] }
        registry
      wrapDims rest ty' registry'
  | ArrayLength.dynamic :: rest, ty, registry =>
    let (ty', registry') := get_or_register_ty
      { path := [], type_params := [], type_def := .sequence ty.id, docs := [] }
      registry
    wrapDims rest ty' registry'

/-- The field loop of the `ast::Type::Struct` arm: resolve each field's type
left to right, threading registry and cache, and name each emitted field
after the source field. -/
def resolveStructFields
    (res : AstType → PortableRegistry → Cache →
      Option (PortableType × PortableRegistry × Cache)) :
    List StructField → PortableRegistry → Cache →
      Option (List Field × PortableRegistry × Cache)
  | [], registry, cache => some ([], registry, cache)
  | f :: rest, registry, cache =>
    match res f.ty registry cache with
    | none => none
    | some (f_ty, registry, cache) =>
      match resolveStructFields res rest registry cache with
      | none => none
      | some (fs, registry, cache) =>
        some ({ name := some f.name, ty := f_ty.id, type_name := none, docs := [] } :: fs,
          registry, cache)

/-- The field loop of the `ast::Type::ExternalFunction` arm: resolve each
listed type left to right into an unnamed field. -/
def resolveUnnamedFields
    (res : AstType → PortableRegistry → Cache →
      Option (PortableType × PortableRegistry × Cache)) :
    List AstType → PortableRegistry → Cache →
      Option (List Field × PortableRegistry × Cache)
  | [], registry, cache => some ([], registry, cache)
  | t :: rest, registry, cache =>
    match res t registry cache with
    | none => none
    | some (pt, registry, cache) =>
      match resolveUnnamedFields res rest registry cache with
      | none => none
      | some (fs, registry, cache) =>
        some ({ name := none, ty := pt.id, type_name := none, docs := [] } :: fs,
          registry, cache)

/-- Insert an element into a sorted list, before the first element it
compares `le` to. -/
def insertSorted (le : α → α → Bool) (a : α) : List α → List α
  | [] => [a]
  | b :: l => if le a b then a :: b :: l else b :: insertSorted le a l

/-- Stable insertion sort, modelling Rust's stable `sort_by`: a stable sort
is determined up to the order of `le`-equivalent elements, which the claims
do not depend on. -/
def insertionSort (le : α → α → Bool) : List α → List α
  | [] => []
  | a :: l => insertSorted le a (insertionSort le l)

/-- The variant list of the `ast::Type::Enum` arm: sort the declared values
by discriminant (Rust's `sort_by` is a stable sort) and build payload free
variants, the `u8` cast of the discriminant becoming `% 256`. -/
def enumVariants (values : List (String × Nat)) : List Variant :=
  (insertionSort (fun a b => decide (a.2 ≤ b.2)) values).map
    (fun kv => { name := kv.1, fields := [], index := kv.2 % 256, docs := [] })

/-- The body of `resolve_ast`, mirroring the source match arm by arm; the
cache is consulted first and, as in the source, never written.  `resolve`
stands for the recursive call (instantiated with the fuelled function one
step down below). -/
def resolve_ast_body
    (resolve : AstType → PortableRegistry → Cache →
      Option (PortableType × PortableRegistry × Cache))
    (ty : AstType) (ns : Namespace) (registry : PortableRegistry) (cache : Cache) :
    Option (PortableType × PortableRegistry × Cache) :=
    match cacheGet cache ty with
    | some t => some (t, registry, cache)
    | none =>
      match ty with
      | .address _ | .contract _ =>
        match resolve
          (.array (.uint 8) [.fixed ((ns.address_length % 256 : Nat) : Int)])
          registry cache with
        | none => none
        | some (address_ty, registry, cache) =>
          let field : Field := { name := none, ty := address_ty.id, type_name := none, docs := [] }
          let sty : ScaleType :=
            { path := [], type_params := [], type_def := .composite [field], docs := [] }
          let (pt, registry) := get_or_register_ty sty registry
          some (pt, registry, cache)
      | .bool | .int _ | .uint _ | .string =>
        match primitive_to_ty ty registry with
        | none => none
        | some (sty, registry) =>
          let (pt, registry) := get_or_register_ty sty registry
          some (pt, registry, cache)
      | .array elem dims =>
        match resolve elem registry cache with
        | none => none
        | some (ty0, registry, cache) =>
          match wrapDims dims ty0 registry with
          | none => none
          | some (pt, registry) => some (pt, registry, cache)
      | .bytes n =>
        resolve (.array (.uint 8) [.fixed (i8_cast n)]) registry cache
      | .dynamicBytes =>
        resolve (.array (.uint 8) [.dynamic]) registry cache
      | .struct s =>
        match ns.structs[s]? with
        | none => none
        | some sdef =>
          match resolveStructFields resolve sdef.fields registry cache with
          | none => none
          | some (fields, registry, cache) =>
            let sty : ScaleType :=
              { path := [], type_params := [], type_def := .composite fields, docs := [] }
            let (pt, registry) := get_or_register_ty sty registry
            some (pt, registry, cache)
      | .enum n =>
        match ns.enums[n]? with
        | none => none
        | some decl =>
          let sty : ScaleType :=
            { path := [], type_params := [],
              type_def := .variant (enumVariants decl.values), docs := [] }
          let (pt, registry) := get_or_register_ty sty registry
          some (pt, registry, cache)
      | .ref t => resolve t registry cache
      | .storageRef _ t => resolve t registry cache
      | .internalFunction => resolve (.uint 8) registry cache
      | .externalFunction =>
        match resolveUnnamedFields resolve [.address false, .uint 32] registry cache with
        | none => none
        | some (fields, registry, cache) =>
          let sty : ScaleType :=
            { path := [], type_params := [], type_def := .composite fields, docs := [] }
          let (pt, registry) := get_or_register_ty sty registry
          some (pt, registry, cache)
      | .userType no =>
        match ns.user_types[no]? with
        | none => none
        | some ut => resolve ut.ty registry cache
      | .unsupported => none

/-- `resolve_ast`, fuelled: `none` on fuel exhaustion, otherwise one
unfolding of the body with the recursion one fuel step down. -/
def resolve_ast : Nat → AstType → Namespace → PortableRegistry → Cache →
    Option (PortableType × PortableRegistry × Cache)
  | 0, _, _, _, _ => none
  | fuel + 1, ty, ns, registry, cache =>
    resolve_ast_body (fun t r c => resolve_ast fuel t ns r c) ty ns registry cache
termination_by structural fuel _ _ _ _ => fuel

/-! ## The ink_metadata output vocabulary -/

/-- `ink_metadata::TypeSpec<PortableForm>`: a registry id plus a display
path; `substrate.rs` always builds it with a default (empty) path. -/
structure TypeSpecM where
  ty : Nat
  display_name : List String
deriving DecidableEq, Repr

/-- Display rendering of a `scale_info::Path`: segments joined by `::`
(the empty path renders as the empty string). -/
def path_display (segs : List String) : String := String.intercalate "::" segs

/-- `ink_metadata::MessageParamSpec<PortableForm>`. -/
structure MessageParamSpecM where
  label : String
  ty : TypeSpecM
deriving DecidableEq, Repr

/-- `ink_metadata::ConstructorSpec<PortableForm>`. -/
structure ConstructorSpecM where
  label : String
  selector : List Nat
  payable : Bool
  args : List MessageParamSpecM
  docs : List String
deriving DecidableEq, Repr

/-- `ink_metadata::MessageSpec<PortableForm>`; `ret` is the
`ReturnTypeSpec`'s optional type. -/
structure MessageSpecM where
  label : String
  selector : List Nat
  mutates : Bool
  payable : Bool
  args : List MessageParamSpecM
  ret : Option TypeSpecM
  docs : List String
deriving DecidableEq, Repr

/-- `ink_metadata::EventParamSpec<PortableForm>`. -/
structure EventParamSpecM where
  label : String
  indexed : Bool
  ty : TypeSpecM
  docs : List String
deriving DecidableEq, Repr

/-- `ink_metadata::EventSpec<PortableForm>`. -/
structure EventSpecM where
  label : String
  args : List EventParamSpecM
  docs : List String
deriving DecidableEq, Repr

/-- A storage cell: the layout key (kept as the 64-hex-digit key string the
source decodes into the 32 raw bytes of `LayoutKey`; the decoding is a
bijection on such strings) and the registry id of the cell's type. -/
structure CellLayoutM where
  key : List Char
  ty : Nat
deriving DecidableEq, Repr

/-- `ink_metadata::layout::FieldLayout`: a named cell. -/
structure FieldLayoutM where
  name : String
  layout : CellLayoutM
deriving DecidableEq, Repr

/-- `ink_metadata::layout::StructLayout`: the one top-level composite the
storage layout is wrapped in. -/
structure StructLayoutM where
  fields : List FieldLayoutM
deriving DecidableEq, Repr

/-- `ink_metadata::ContractSpec<PortableForm>`. -/
structure ContractSpecM where
  constructors : List ConstructorSpecM
  messages : List MessageSpecM
  events : List EventSpecM
  docs : List String
deriving DecidableEq, Repr

/-- `ink_metadata::InkProject`, assembled by `gen_project`. -/
structure InkProjectM where
  layout : StructLayoutM
  spec : ContractSpecM
  registry : PortableRegistry
deriving DecidableEq, Repr

/-! ## Hexadecimal slot keys -/

/-- One uppercase hexadecimal digit. -/
def hexDigit (d : Nat) : Char :=
  match d with
  | 0 => '0' | 1 => '1' | 2 => '2' | 3 => '3' | 4 => '4' | 5 => '5' | 6 => '6'
  | 7 => '7' | 8 => '8' | 9 => '9' | 10 => 'A' | 11 => 'B' | 12 => 'C'
  | 13 => 'D' | 14 => 'E' | _ => 'F'

/-- Numeric value of an uppercase hexadecimal digit. -/
def hexDigitVal (c : Char) : Nat :=
  match c with
  | '0' => 0 | '1' => 1 | '2' => 2 | '3' => 3 | '4' => 4 | '5' => 5 | '6' => 6
  | '7' => 7 | '8' => 8 | '9' => 9 | 'A' => 10 | 'B' => 11 | 'C' => 12
  | 'D' => 13 | 'E' => 14 | _ => 15

/-- Big-endian value of a hex digit string. -/
def hexVal (s : List Char) : Nat := s.foldl (fun acc c => acc * 16 + hexDigitVal c) 0

/-- Fuelled most-significant-first hex rendering (empty for zero). -/
def hexAux : Nat → Nat → List Char
  | 0, _ => []
  | fuel + 1, n => if n = 0 then [] else hexAux fuel (n / 16) ++ [hexDigit (n % 16)]

/-- Uppercase hexadecimal rendering of a natural number (`"0"` for zero);
a fuel of `n` always suffices because the digit count is at most `n`. -/
def hexStr (n : Nat) : List Char := if n = 0 then ['0'] else hexAux n n

/-- Rust's `format!("{:064X}", slot)`: the uppercase hex rendering padded
with leading zeros to at least 64 characters. -/
def format064X (n : Nat) : List Char :=
  List.replicate (64 - (hexStr n).length) '0' ++ hexStr n

/-- `<[u8; 32]>::from_hex(..).unwrap()` applied to `format!("{:064X}", _)`
output: succeeds exactly when the string has 64 (necessarily hexadecimal)
characters; the key keeps the string form (byte decoding is a bijection on
64-digit hex strings). -/
def from_hex32 (s : List Char) : Option (List Char) :=
  if s.length = 64 then some s else none

/-! ## gen_project -/

/-- `f.selector().try_into().unwrap()` into `[u8; 4]`: defined exactly on
4-byte selectors. -/
def selector_bytes (s : List Nat) : Option (List Nat) :=
  if s.length = 4 then some s else none

/-- The parameter loop shared by `f_to_constructor` and `f_to_message`:
resolve each parameter type left to right and pair it with the parameter
name. -/
def resolveParams (fuel : Nat) (ns : Namespace) :
    List Parameter → PortableRegistry → Cache →
      Option (List MessageParamSpecM × PortableRegistry × Cache)
  | [], registry, cache => some ([], registry, cache)
  | p :: rest, registry, cache =>
    match resolve_ast fuel p.ty ns registry cache with
    | none => none
    | some (pt, registry, cache) =>
      let spec : TypeSpecM := { ty := pt.id, display_name := [] }
      match resolveParams fuel ns rest registry cache with
      | none => none
      | some (ps, registry, cache) =>
        some ({ label := p.name_as_str, ty := spec } :: ps, registry, cache)

/-- The returns loop of the multi-value arm of `f_to_message`: each return
value becomes a field named after the source return identifier (if any),
whose `type_name` is the rendering of the default display path. -/
def resolveReturnFields (fuel : Nat) (ns : Namespace) :
    List Parameter → PortableRegistry → Cache →
      Option (List Field × PortableRegistry × Cache)
  | [], registry, cache => some ([], registry, cache)
  | r :: rest, registry, cache =>
    match resolve_ast fuel r.ty ns registry cache with
    | none => none
    | some (pt, registry, cache) =>
      let f_spec : TypeSpecM := { ty := pt.id, display_name := [] }
      match resolveReturnFields fuel ns rest registry cache with
      | none => none
      | some (fs, registry, cache) =>
        some ({ name := r.id, ty := f_spec.ty,
                type_name := some (path_display f_spec.display_name), docs := [] } :: fs,
          registry, cache)

/-- The `ret_spec` match of `f_to_message`: no returns yield no spec, one
return yields its id directly, two or more returns synthesize a composite
entry out of the return fields and yield its id. -/
def message_ret_spec (fuel : Nat) (ns : Namespace) (returns : List Parameter)
    (registry : PortableRegistry) (cache : Cache) :
    Option (Option TypeSpecM × PortableRegistry × Cache) :=
  match returns with
  | [] => some (none, registry, cache)
  | [r] =>
    match resolve_ast fuel r.ty ns registry cache with
    | none => none
    | some (pt, registry, cache) =>
      some (some { ty := pt.id, display_name := [] }, registry, cache)
  | _ =>
    match resolveReturnFields fuel ns returns registry cache with
    | none => none
    | some (fields, registry, cache) =>
      let sty : ScaleType :=
        { path := [], type_params := [], type_def := .composite fields, docs := [] }
      let (pt, registry) := get_or_register_ty sty registry
      some (some { ty := pt.id, display_name := [] }, registry, cache)

/-- `f_to_constructor`: every constructor is labelled `"new"`, keeps its
externally computed selector, derives payability from mutability and
resolves its parameters. -/
def f_to_constructor (fuel : Nat) (ns : Namespace) (f : Function)
    (registry : PortableRegistry) (cache : Cache) :
    Option (ConstructorSpecM × PortableRegistry × Cache) :=
  let payable := f.mutability = Mutability.payable
  match resolveParams fuel ns f.params registry cache with
  | none => none
  | some (args, registry, cache) =>
    match selector_bytes f.selector with
    | none => none
    | some sel =>
      some ({ label := "new", selector := sel, payable := payable, args := args,
              docs := [f.docs] }, registry, cache)

/-- `f_to_message`: payability and mutability from the mutability
annotation, the return spec from `message_ret_spec`, then the parameters. -/
def f_to_message (fuel : Nat) (ns : Namespace) (f : Function)
    (registry : PortableRegistry) (cache : Cache) :
    Option (MessageSpecM × PortableRegistry × Cache) :=
  let payable := f.mutability = Mutability.payable
  let mutates := f.mutability = Mutability.payable ∨ f.mutability = Mutability.nonpayable
  match message_ret_spec fuel ns f.returns registry cache with
  | none => none
  | some (ret, registry, cache) =>
    match resolveParams fuel ns f.params registry cache with
    | none => none
    | some (args, registry, cache) =>
      match selector_bytes f.selector with
      | none => none
      | some sel =>
        some ({ label := f.name, selector := sel, mutates := mutates, payable := payable,
                args := args, ret := ret, docs := [f.docs] }, registry, cache)

/-- `e_to_evt`: every event field keeps its label, resolved type and
verbatim `indexed` flag. -/
def e_to_evt (fuel : Nat) (ns : Namespace) (e : EventDecl)
    (registry : PortableRegistry) (cache : Cache) :
    Option (EventSpecM × PortableRegistry × Cache) :=
  match eventFields fuel ns e.fields registry cache with
  | none => none
  | some (args, registry, cache) =>
    some ({ label := e.name, args := args, docs := [e.docs] }, registry, cache)
where
  eventFields (fuel : Nat) (ns : Namespace) :
      List EventField → PortableRegistry → Cache →
        Option (List EventParamSpecM × PortableRegistry × Cache)
    | [], registry, cache => some ([], registry, cache)
    | p :: rest, registry, cache =>
      match resolve_ast fuel p.ty ns registry cache with
      | none => none
      | some (pt, registry, cache) =>
        let spec : TypeSpecM := { ty := pt.id, display_name := [] }
        match eventFields fuel ns rest registry cache with
        | none => none
        | some (ps, registry, cache) =>
          some ({ label := p.name, indexed := p.indexed, ty := spec, docs := [] } :: ps,
            registry, cache)

/-- The storage-layout loop of `gen_project`: look the variable up, skip it
when its type contains a mapping or does not fit in memory, otherwise emit
one cell keyed by the 64-hex-digit rendering of the slot and typed by the
resolved registry id. -/
def build_layout_fields (fuel : Nat) (ns : Namespace) :
    List LayoutVar → PortableRegistry → Cache →
      Option (List FieldLayoutM × PortableRegistry × Cache)
  | [], registry, cache => some ([], registry, cache)
  | l :: rest, registry, cache =>
    match ns.contracts[l.contract_no]? with
    | none => none
    | some c =>
      match c.vars[l.var_no]? with
      | none => none
      | some var =>
        if !ns.contains_mapping var.ty && ns.fits_in_memory var.ty then
          let key_str := format064X l.slot
          match from_hex32 key_str with
          | none => none
          | some key_val =>
            match resolve_ast fuel l.ty ns registry cache with
            | none => none
            | some (ty, registry, cache) =>
              let f : FieldLayoutM :=
                { name := var.name, layout := { key := key_val, ty := ty.id } }
              match build_layout_fields fuel ns rest registry cache with
              | none => none
              | some (fs, registry, cache) => some (f :: fs, registry, cache)
        else
          build_layout_fields fuel ns rest registry cache

/-- The constructor collection loop: index into `ns.functions` and keep the
functions of constructor type. -/
def constructor_funcs : List Nat → Namespace → Option (List Function)
  | [], _ => some []
  | i :: rest, ns =>
    match ns.functions[i]? with
    | none => none
    | some f =>
      match constructor_funcs rest ns with
      | none => none
      | some fs => some (if f.is_constructor then f :: fs else fs)

/-- The message collection loop over `all_functions`: index into
`ns.functions` and drop functions that belong to a library contract. -/
def message_funcs : List Nat → Namespace → Option (List Function)
  | [], _ => some []
  | i :: rest, ns =>
    match ns.functions[i]? with
    | none => none
    | some func =>
      let keep : Option Bool :=
        match func.contract_no with
        | some base_contract_no =>
          match ns.contracts[base_contract_no]? with
          | none => none
          | some bcc => some (!bcc.is_library)
        | none => some true
      match keep with
      | none => none
      | some keep =>
        match message_funcs rest ns with
        | none => none
        | some fs => some (if keep then func :: fs else fs)

/-- The visibility filter on messages: public or external, and a plain
function. -/
def message_filter (f : Function) : Bool :=
  (f.visibility = Visibility.public ∨ f.visibility = Visibility.external) ∧
    f.ty = FunctionTy.function

/-- Left-to-right monadic map threading registry and cache, as the source's
effectful iterator `map`/`collect` chains do. -/
def threadMap (step : α → PortableRegistry → Cache →
    Option (β × PortableRegistry × Cache)) :
    List α → PortableRegistry → Cache → Option (List β × PortableRegistry × Cache)
  | [], registry, cache => some ([], registry, cache)
  | a :: rest, registry, cache =>
    match step a registry cache with
    | none => none
    | some (b, registry, cache) =>
      match threadMap step rest registry cache with
      | none => none
      | some (bs, registry, cache) => some (b :: bs, registry, cache)

/-- `gen_project`, parameterized over the initial registry and cache (the
source creates both fresh; `gen_project` below instantiates them so). -/
def gen_project_from (fuel : Nat) (contract_no : Nat) (ns : Namespace)
    (registry : PortableRegistry) (cache : Cache) : Option InkProjectM :=
  match ns.contracts[contract_no]? with
  | none => none
  | some c =>
    match build_layout_fields fuel ns c.layout registry cache with
    | none => none
    | some (fields, registry, cache) =>
      let layout : StructLayoutM := { fields := fields }
      match constructor_funcs c.functions ns with
      | none => none
      | some ctors =>
        let ctor_list := ctors ++
          (match c.default_constructor with | some e => [e] | none => [])
        match threadMap (f_to_constructor fuel ns) ctor_list registry cache with
        | none => none
        | some (constructors, registry, cache) =>
          match message_funcs c.all_functions ns with
          | none => none
          | some mfs =>
            let mfs := mfs.filter message_filter
            match threadMap (f_to_message fuel ns) mfs registry cache with
            | none => none
            | some (messages, registry, cache) =>
              match c.sends_events.mapM (fun i => ns.events[i]?) with
              | none => none
              | some evts =>
                match threadMap (e_to_evt fuel ns) evts registry cache with
                | none => none
                | some (events, registry, _cache) =>
                  some { layout := layout
                       , spec := { constructors := constructors, messages := messages,
                                   events := events, docs := [c.docs] }
                       , registry := registry }

/-- `gen_project`: the registry is built manually starting empty and the
cache starts empty, per compiled contract. -/
def gen_project (fuel : Nat) (contract_no : Nat) (ns : Namespace) : Option InkProjectM :=
  gen_project_from fuel contract_no ns { types := [] } []

/-! ## Registry invariants -/

/-- The registry ids a type definition references. -/
def TypeDef.nestedIds : TypeDef → List Nat
  | .primitive _ => []
  | .composite fields => fields.map (·.ty)
  | .array _ type_param => [type_param]
  | .sequence type_param => [type_param]
  | .variant variants => (variants.map (fun v => v.fields.map (·.ty))).flatten

def ScaleType.nestedIds (t : ScaleType) : List Nat := t.type_def.nestedIds

/-- The portable-registry invariant: every entry's id is its 0-based
position, no two entries are structurally equal, and every entry references
only strictly smaller ids (hence only entries already present, and the
reference graph is acyclic). -/
def RegistryWF (reg : PortableRegistry) : Prop :=
  (∀ i (h : i < reg.types.length), reg.types[i].id = i) ∧
  List.Pairwise (fun a b => a.ty ≠ b.ty) reg.types ∧
  (∀ i (h : i < reg.types.length), ∀ j ∈ reg.types[i].ty.nestedIds, j < i)

/-- Every entry the cache holds is present in the registry. -/
def CacheWF (cache : Cache) (reg : PortableRegistry) : Prop :=
  ∀ e ∈ cache, e.2 ∈ reg.types

theorem cacheWF_nil (reg : PortableRegistry) : CacheWF [] reg := by
  intro e he; cases he

theorem cacheWF_extend {cache : Cache} {reg reg' : PortableRegistry}
    (h : CacheWF cache reg) (hext : ∃ ext, reg'.types = reg.types ++ ext) :
    CacheWF cache reg' := by
  obtain ⟨ext, hx⟩ := hext
  intro e he
  have := h e he
  rw [hx]
  exact List.mem_append_left _ this

theorem get_or_register_ty_ty (ty : ScaleType) (reg : PortableRegistry) :
    (get_or_register_ty ty reg).1.ty = ty := by
  unfold get_or_register_ty
  cases h : reg.types.find? (fun e => e.ty = ty) with
  | none => simp
  | some t =>
    have := List.find?_some h
    simp only [decide_eq_true_eq] at this
    simpa using this

theorem get_or_register_ty_extends (ty : ScaleType) (reg : PortableRegistry) :
    ∃ ext, (get_or_register_ty ty reg).2.types = reg.types ++ ext := by
  unfold get_or_register_ty
  cases h : reg.types.find? (fun e => e.ty = ty) with
  | none => exact ⟨_, rfl⟩
  | some t => exact ⟨[], by simp⟩

theorem get_or_register_ty_mem (ty : ScaleType) (reg : PortableRegistry) :
    (get_or_register_ty ty reg).1 ∈ (get_or_register_ty ty reg).2.types := by
  unfold get_or_register_ty
  cases h : reg.types.find? (fun e => e.ty = ty) with
  | none => simp
  | some t =>
    have := List.mem_of_find?_eq_some h
    simpa using this

/-- When no structurally equal entry is present, `get_or_register_ty`
appends a fresh entry whose id is the previous length. -/
theorem get_or_register_ty_not_found {ty : ScaleType} {reg : PortableRegistry}
    (h : ∀ e ∈ reg.types, e.ty ≠ ty) :
    get_or_register_ty ty reg =
      ({ id := reg.types.length, ty := ty },
       { types := reg.types ++ [{ id := reg.types.length, ty := ty }] }) := by
  unfold get_or_register_ty
  have hf : reg.types.find? (fun e => e.ty = ty) = none := by
    rw [List.find?_eq_none]
    intro x hx
    simpa using h x hx
  rw [hf]

/-- When a structurally equal entry is present, `get_or_register_ty` returns
the first such entry and leaves the registry unchanged. -/
theorem get_or_register_ty_found {ty : ScaleType} {reg : PortableRegistry} {t : PortableType}
    (h : reg.types.find? (fun e => e.ty = ty) = some t) :
    get_or_register_ty ty reg = (t, reg) := by
  unfold get_or_register_ty
  rw [h]

theorem registryWF_get_or_register_ty {ty : ScaleType} {reg : PortableRegistry}
    (hwf : RegistryWF reg) (hids : ∀ j ∈ ty.nestedIds, j < reg.types.length) :
    RegistryWF (get_or_register_ty ty reg).2 := by
  cases h : reg.types.find? (fun e => e.ty = ty) with
  | some t =>
    rw [get_or_register_ty_found h]
    exact hwf
  | none =>
    obtain ⟨hid, hpw, hnest⟩ := hwf
    have hnotin : ∀ e ∈ reg.types, e.ty ≠ ty := by
      intro e he
      have := List.find?_eq_none.mp h e he
      simpa using this
    rw [get_or_register_ty_not_found hnotin]
    refine ⟨?_, ?_, ?_⟩
    · intro i hi
      simp only [List.length_append, List.length_cons, List.length_nil] at hi
      rcases Nat.lt_or_ge i reg.types.length with hlt | hge
      · rw [List.getElem_append_left hlt]
        exact hid i hlt
      · have hieq : i = reg.types.length := by omega
        subst hieq
        rw [List.getElem_concat_length]
        rfl
    · rw [List.pairwise_append]
      refine ⟨hpw, List.pairwise_singleton _ _, ?_⟩
      intro a ha b hb
      simp only [List.mem_singleton] at hb
      subst hb
      simpa using hnotin a ha
    · intro i hi
      simp only [List.length_append, List.length_cons, List.length_nil] at hi
      rcases Nat.lt_or_ge i reg.types.length with hlt | hge
      · rw [List.getElem_append_left hlt]
        exact hnest i hlt
      · have hieq : i = reg.types.length := by omega
        subst hieq
        intro j hj
        rw [List.getElem_concat_length _ _ _ rfl] at hj
        exact hids j hj

/-- In a well-formed registry, a member entry sits at the position its id
names. -/
theorem RegistryWF.mem_lookup {reg : PortableRegistry} {pt : PortableType}
    (hwf : RegistryWF reg) (h : pt ∈ reg.types) :
    pt.id < reg.types.length ∧ reg.types[pt.id]? = some pt := by
  obtain ⟨iv, hiv, hget⟩ := List.getElem_of_mem h
  obtain ⟨hid, _, _⟩ := hwf
  have hpt : pt.id = iv := by
    rw [← hget]
    exact hid iv hiv
  rw [hpt]
  refine ⟨hiv, ?_⟩
  rw [List.getElem?_eq_getElem hiv, hget]

theorem cacheGet_mem {cache : Cache} {ty : AstType} {t : PortableType}
    {reg : PortableRegistry} (h : cacheGet cache ty = some t) (hwf : CacheWF cache reg) :
    t ∈ reg.types := by
  unfold cacheGet at h
  cases hf : cache.find? (fun e => e.1 = ty) with
  | none => rw [hf] at h; cases h
  | some e =>
    rw [hf] at h
    simp at h
    subst h
    exact hwf e (List.mem_of_find?_eq_some hf)

theorem types_length_le_of_extends {reg reg' : PortableRegistry}
    (h : ∃ ext, reg'.types = reg.types ++ ext) :
    reg.types.length ≤ reg'.types.length := by
  obtain ⟨ext, hx⟩ := h
  rw [hx, List.length_append]
  omega

theorem extends_trans {a b c : PortableRegistry}
    (h1 : ∃ ext, b.types = a.types ++ ext) (h2 : ∃ ext, c.types = b.types ++ ext) :
    ∃ ext, c.types = a.types ++ ext := by
  obtain ⟨e1, hx1⟩ := h1
  obtain ⟨e2, hx2⟩ := h2
  exact ⟨e1 ++ e2, by rw [hx2, hx1, List.append_assoc]⟩

theorem mem_of_extends {reg reg' : PortableRegistry} {pt : PortableType}
    (h : ∃ ext, reg'.types = reg.types ++ ext) (hm : pt ∈ reg.types) :
    pt ∈ reg'.types := by
  obtain ⟨ext, hx⟩ := h
  rw [hx]
  exact List.mem_append_left _ hm

/-- Specification bundle for one resolution step: the cache comes back
unchanged, the registry is only appended to, and well-formedness is
preserved with the result entry present in the output registry. -/
def ResolveSpec (reg : PortableRegistry) (cache : Cache)
    (pt : PortableType) (reg' : PortableRegistry) (cache' : Cache) : Prop :=
  cache' = cache ∧ (∃ ext, reg'.types = reg.types ++ ext) ∧
    (RegistryWF reg → CacheWF cache reg → RegistryWF reg' ∧ pt ∈ reg'.types)

theorem wrapDims_master : ∀ (dims : List ArrayLength) (ty0 : PortableType)
    (reg : PortableRegistry) (pt : PortableType) (reg' : PortableRegistry),
    wrapDims dims ty0 reg = some (pt, reg') →
    (∃ ext, reg'.types = reg.types ++ ext) ∧
      (RegistryWF reg → ty0 ∈ reg.types → RegistryWF reg' ∧ pt ∈ reg'.types) := by
  intro dims
  induction dims with
  | nil =>
    intro ty0 reg pt reg' h
    simp only [wrapDims, Option.some.injEq, Prod.mk.injEq] at h
    obtain ⟨h1, h2⟩ := h
    subst h1; subst h2
    exact ⟨⟨[], by simp⟩, fun hwf hm => ⟨hwf, hm⟩⟩
  | cons d rest ih =>
    intro ty0 reg pt reg' h
    cases d with
    | fixed dv =>
      simp only [wrapDims] at h
      cases hb : bigint_to_u32 dv with
      | none => rw [hb] at h; cases h
      | some len =>
        rw [hb] at h
        set sty : ScaleType :=
          { path := [], type_params := [], type_def := .array len ty0.id, docs := [] } with hsty
        have hrec := ih (get_or_register_ty sty reg).1 (get_or_register_ty sty reg).2 pt reg' h
        obtain ⟨hx, hwfp⟩ := hrec
        refine ⟨extends_trans (get_or_register_ty_extends sty reg) hx, ?_⟩
        intro hwf hm
        have hids : ∀ j ∈ sty.nestedIds, j < reg.types.length := by
          intro j hj
          simp only [hsty, ScaleType.nestedIds, TypeDef.nestedIds, List.mem_singleton] at hj
          subst hj
          exact (hwf.mem_lookup hm).1
        exact hwfp (registryWF_get_or_register_ty hwf hids) (get_or_register_ty_mem sty reg)
    | dynamic =>
      simp only [wrapDims] at h
      set sty : ScaleType :=
        { path := [], type_params := [], type_def := .sequence ty0.id, docs := [] } with hsty
      have hrec := ih (get_or_register_ty sty reg).1 (get_or_register_ty sty reg).2 pt reg' h
      obtain ⟨hx, hwfp⟩ := hrec
      refine ⟨extends_trans (get_or_register_ty_extends sty reg) hx, ?_⟩
      intro hwf hm
      have hids : ∀ j ∈ sty.nestedIds, j < reg.types.length := by
        intro j hj
        simp only [hsty, ScaleType.nestedIds, TypeDef.nestedIds, List.mem_singleton] at hj
        subst hj
        exact (hwf.mem_lookup hm).1
      exact hwfp (registryWF_get_or_register_ty hwf hids) (get_or_register_ty_mem sty reg)

theorem int_to_ty_master {ty : AstType} {reg : PortableRegistry} {sty : ScaleType}
    {reg₁ : PortableRegistry} (h : int_to_ty ty reg = some (sty, reg₁)) :
    (∃ ext, reg₁.types = reg.types ++ ext) ∧
      (RegistryWF reg → RegistryWF reg₁) ∧ sty.nestedIds = [] := by
  cases ty
  case int n =>
    simp only [int_to_ty] at h
    cases hp : prim_of_scalety true (next_power_of_two n) with
    | none =>
      simp only [hp] at h
      cases h
    | some p =>
      simp only [hp, Option.some.injEq, Prod.mk.injEq] at h
      obtain ⟨h1, h2⟩ := h
      subst h1; subst h2
      refine ⟨get_or_register_ty_extends _ _, ?_, rfl⟩
      intro hwf
      refine registryWF_get_or_register_ty hwf ?_
      intro j hj
      simp [ScaleType.nestedIds, TypeDef.nestedIds] at hj
  case uint n =>
    simp only [int_to_ty] at h
    cases hp : prim_of_scalety false (next_power_of_two n) with
    | none =>
      simp only [hp] at h
      cases h
    | some p =>
      simp only [hp, Option.some.injEq, Prod.mk.injEq] at h
      obtain ⟨h1, h2⟩ := h
      subst h1; subst h2
      refine ⟨get_or_register_ty_extends _ _, ?_, rfl⟩
      intro hwf
      refine registryWF_get_or_register_ty hwf ?_
      intro j hj
      simp [ScaleType.nestedIds, TypeDef.nestedIds] at hj
  all_goals simp [int_to_ty] at h

theorem primitive_to_ty_master {ty : AstType} {reg : PortableRegistry} {sty : ScaleType}
    {reg₁ : PortableRegistry} (h : primitive_to_ty ty reg = some (sty, reg₁)) :
    (∃ ext, reg₁.types = reg.types ++ ext) ∧
      (RegistryWF reg → RegistryWF reg₁) ∧ sty.nestedIds = [] := by
  cases ty
  case int n =>
    simp only [primitive_to_ty] at h
    exact int_to_ty_master h
  case uint n =>
    simp only [primitive_to_ty] at h
    exact int_to_ty_master h
  case bool =>
    simp only [primitive_to_ty, Option.some.injEq, Prod.mk.injEq] at h
    obtain ⟨h1, h2⟩ := h
    subst h1; subst h2
    exact ⟨⟨[], by simp⟩, fun hwf => hwf, rfl⟩
  case string =>
    simp only [primitive_to_ty, Option.some.injEq, Prod.mk.injEq] at h
    obtain ⟨h1, h2⟩ := h
    subst h1; subst h2
    exact ⟨⟨[], by simp⟩, fun hwf => hwf, rfl⟩
  all_goals simp [primitive_to_ty] at h

theorem enumVariants_nestedIds (vals : List (String × Nat)) :
    TypeDef.nestedIds (.variant (enumVariants vals)) = [] := by
  simp only [TypeDef.nestedIds, enumVariants, List.map_map]
  rw [List.flatten_eq_nil_iff]
  intro l hl
  simp only [List.mem_map, Function.comp] at hl
  obtain ⟨kv, _, hkv⟩ := hl
  simp [← hkv]

theorem resolveStructFields_master
    (res : AstType → PortableRegistry → Cache →
      Option (PortableType × PortableRegistry × Cache))
    (Hres : ∀ t reg cache pt reg' cache', res t reg cache = some (pt, reg', cache') →
      ResolveSpec reg cache pt reg' cache') :
    ∀ (flds : List StructField) (reg : PortableRegistry) (cache : Cache)
      (fs : List Field) (reg' : PortableRegistry) (cache' : Cache),
      resolveStructFields res flds reg cache = some (fs, reg', cache') →
      cache' = cache ∧ (∃ ext, reg'.types = reg.types ++ ext) ∧
        (RegistryWF reg → CacheWF cache reg →
          RegistryWF reg' ∧ ∀ fld ∈ fs, fld.ty < reg'.types.length) := by
  intro flds
  induction flds with
  | nil =>
    intro reg cache fs reg' cache' h
    simp only [resolveStructFields, Option.some.injEq, Prod.mk.injEq] at h
    obtain ⟨h1, h2, h3⟩ := h
    subst h1; subst h2; subst h3
    exact ⟨rfl, ⟨[], by simp⟩, fun hwf _ => ⟨hwf, by simp⟩⟩
  | cons f rest ih =>
    intro reg cache fs reg' cache' h
    simp only [resolveStructFields] at h
    cases h1 : res f.ty reg cache with
    | none => rw [h1] at h; cases h
    | some x =>
      obtain ⟨fty, reg1, cache1⟩ := x
      rw [h1] at h
      dsimp only at h
      cases h2 : resolveStructFields res rest reg1 cache1 with
      | none => rw [h2] at h; cases h
      | some y =>
        obtain ⟨fs1, reg2, cache2⟩ := y
        rw [h2] at h
        dsimp only at h
        simp only [Option.some.injEq, Prod.mk.injEq] at h
        obtain ⟨hfs, hreg, hcache⟩ := h
        subst hfs; subst hreg; subst hcache
        obtain ⟨hc1, hx1, hwf1⟩ := Hres _ _ _ _ _ _ h1
        subst hc1
        obtain ⟨hc2, hx2, hwf2⟩ := ih _ _ _ _ _ h2
        subst hc2
        refine ⟨rfl, extends_trans hx1 hx2, ?_⟩
        intro hwf hcwf
        obtain ⟨hwfa, hmema⟩ := hwf1 hwf hcwf
        obtain ⟨hwfb, hbound⟩ := hwf2 hwfa (cacheWF_extend hcwf hx1)
        refine ⟨hwfb, ?_⟩
        intro fld hfld
        rcases List.mem_cons.mp hfld with hhd | htl
        · subst hhd
          have := (hwfa.mem_lookup hmema).1
          have hlen := types_length_le_of_extends hx2
          simp only []
          omega
        · exact hbound fld htl

theorem resolveUnnamedFields_master
    (res : AstType → PortableRegistry → Cache →
      Option (PortableType × PortableRegistry × Cache))
    (Hres : ∀ t reg cache pt reg' cache', res t reg cache = some (pt, reg', cache') →
      ResolveSpec reg cache pt reg' cache') :
    ∀ (tys : List AstType) (reg : PortableRegistry) (cache : Cache)
      (fs : List Field) (reg' : PortableRegistry) (cache' : Cache),
      resolveUnnamedFields res tys reg cache = some (fs, reg', cache') →
      cache' = cache ∧ (∃ ext, reg'.types = reg.types ++ ext) ∧
        (RegistryWF reg → CacheWF cache reg →
          RegistryWF reg' ∧ ∀ fld ∈ fs, fld.ty < reg'.types.length) := by
  intro tys
  induction tys with
  | nil =>
    intro reg cache fs reg' cache' h
    simp only [resolveUnnamedFields, Option.some.injEq, Prod.mk.injEq] at h
    obtain ⟨h1, h2, h3⟩ := h
    subst h1; subst h2; subst h3
    exact ⟨rfl, ⟨[], by simp⟩, fun hwf _ => ⟨hwf, by simp⟩⟩
  | cons t rest ih =>
    intro reg cache fs reg' cache' h
    simp only [resolveUnnamedFields] at h
    cases h1 : res t reg cache with
    | none => rw [h1] at h; cases h
    | some x =>
      obtain ⟨fty, reg1, cache1⟩ := x
      rw [h1] at h
      dsimp only at h
      cases h2 : resolveUnnamedFields res rest reg1 cache1 with
      | none => rw [h2] at h; cases h
      | some y =>
        obtain ⟨fs1, reg2, cache2⟩ := y
        rw [h2] at h
        dsimp only at h
        simp only [Option.some.injEq, Prod.mk.injEq] at h
        obtain ⟨hfs, hreg, hcache⟩ := h
        subst hfs; subst hreg; subst hcache
        obtain ⟨hc1, hx1, hwf1⟩ := Hres _ _ _ _ _ _ h1
        subst hc1
        obtain ⟨hc2, hx2, hwf2⟩ := ih _ _ _ _ _ h2
        subst hc2
        refine ⟨rfl, extends_trans hx1 hx2, ?_⟩
        intro hwf hcwf
        obtain ⟨hwfa, hmema⟩ := hwf1 hwf hcwf
        obtain ⟨hwfb, hbound⟩ := hwf2 hwfa (cacheWF_extend hcwf hx1)
        refine ⟨hwfb, ?_⟩
        intro fld hfld
        rcases List.mem_cons.mp hfld with hhd | htl
        · subst hhd
          have := (hwfa.mem_lookup hmema).1
          have hlen := types_length_le_of_extends hx2
          simp only []
          omega
        · exact hbound fld htl

/-- The master invariant of one resolution pass: `resolve_ast` never writes
the cache, only appends to the registry, preserves the registry invariant
and returns an entry of the output registry. -/
theorem resolve_ast_master : ∀ (fuel : Nat) (ty : AstType) (ns : Namespace)
    (reg : PortableRegistry) (cache : Cache) (pt : PortableType)
    (reg' : PortableRegistry) (cache' : Cache),
    resolve_ast fuel ty ns reg cache = some (pt, reg', cache') →
    ResolveSpec reg cache pt reg' cache' := by
  intro fuel
  induction fuel with
  | zero =>
    intro ty ns reg cache pt reg' cache' h
    simp [resolve_ast] at h
  | succ fuel ih =>
    intro ty ns reg cache pt reg' cache' h
    rw [resolve_ast.eq_def] at h
    dsimp only at h
    unfold resolve_ast_body at h
    cases hc : cacheGet cache ty with
    | some t =>
      rw [hc] at h
      dsimp only at h
      simp only [Option.some.injEq, Prod.mk.injEq] at h
      obtain ⟨hpt, hreg, hcache⟩ := h
      subst hpt; subst hreg; subst hcache
      exact ⟨rfl, ⟨[], by simp⟩, fun hwf hcwf => ⟨hwf, cacheGet_mem hc hcwf⟩⟩
    | none =>
      rw [hc] at h
      dsimp only at h
      cases ty
      case address payable =>
        dsimp only at h
        cases h1 : resolve_ast fuel
            (.array (.uint 8) [.fixed ((ns.address_length % 256 : Nat) : Int)])
            ns reg cache with
        | none => rw [h1] at h; cases h
        | some x =>
          obtain ⟨aty, reg1, cache1⟩ := x
          rw [h1] at h
          dsimp only at h
          simp only [Option.some.injEq, Prod.mk.injEq] at h
          obtain ⟨hpt, hreg, hcache⟩ := h
          subst hpt; subst hreg; subst hcache
          obtain ⟨hc1, hx1, hwf1⟩ := ih _ _ _ _ _ _ _ h1
          subst hc1
          refine ⟨rfl, extends_trans hx1 (get_or_register_ty_extends _ _), ?_⟩
          intro hwf hcwf
          obtain ⟨hwfa, hmema⟩ := hwf1 hwf hcwf
          refine ⟨registryWF_get_or_register_ty hwfa ?_, get_or_register_ty_mem _ _⟩
          intro j hj
          simp only [ScaleType.nestedIds, TypeDef.nestedIds, List.map_cons, List.map_nil,
            List.mem_singleton] at hj
          subst hj
          exact (hwfa.mem_lookup hmema).1
      case contract no =>
        dsimp only at h
        cases h1 : resolve_ast fuel
            (.array (.uint 8) [.fixed ((ns.address_length % 256 : Nat) : Int)])
            ns reg cache with
        | none => rw [h1] at h; cases h
        | some x =>
          obtain ⟨aty, reg1, cache1⟩ := x
          rw [h1] at h
          dsimp only at h
          simp only [Option.some.injEq, Prod.mk.injEq] at h
          obtain ⟨hpt, hreg, hcache⟩ := h
          subst hpt; subst hreg; subst hcache
          obtain ⟨hc1, hx1, hwf1⟩ := ih _ _ _ _ _ _ _ h1
          subst hc1
          refine ⟨rfl, extends_trans hx1 (get_or_register_ty_extends _ _), ?_⟩
          intro hwf hcwf
          obtain ⟨hwfa, hmema⟩ := hwf1 hwf hcwf
          refine ⟨registryWF_get_or_register_ty hwfa ?_, get_or_register_ty_mem _ _⟩
          intro j hj
          simp only [ScaleType.nestedIds, TypeDef.nestedIds, List.map_cons, List.map_nil,
            List.mem_singleton] at hj
          subst hj
          exact (hwfa.mem_lookup hmema).1
      case bool =>
        dsimp only at h
        cases h1 : primitive_to_ty .bool reg with
        | none => rw [h1] at h; cases h
        | some x =>
          obtain ⟨sty, reg1⟩ := x
          rw [h1] at h
          dsimp only at h
          simp only [Option.some.injEq, Prod.mk.injEq] at h
          obtain ⟨hpt, hreg, hcache⟩ := h
          subst hpt; subst hreg; subst hcache
          obtain ⟨hx1, hwf1, hnest⟩ := primitive_to_ty_master h1
          refine ⟨rfl, extends_trans hx1 (get_or_register_ty_extends _ _), ?_⟩
          intro hwf _
          refine ⟨registryWF_get_or_register_ty (hwf1 hwf) ?_, get_or_register_ty_mem _ _⟩
          intro j hj
          rw [hnest] at hj
          cases hj
      case int n =>
        dsimp only at h
        cases h1 : primitive_to_ty (.int n) reg with
        | none => rw [h1] at h; cases h
        | some x =>
          obtain ⟨sty, reg1⟩ := x
          rw [h1] at h
          dsimp only at h
          simp only [Option.some.injEq, Prod.mk.injEq] at h
          obtain ⟨hpt, hreg, hcache⟩ := h
          subst hpt; subst hreg; subst hcache
          obtain ⟨hx1, hwf1, hnest⟩ := primitive_to_ty_master h1
          refine ⟨rfl, extends_trans hx1 (get_or_register_ty_extends _ _), ?_⟩
          intro hwf _
          refine ⟨registryWF_get_or_register_ty (hwf1 hwf) ?_, get_or_register_ty_mem _ _⟩
          intro j hj
          rw [hnest] at hj
          cases hj
      case uint n =>
        dsimp only at h
        cases h1 : primitive_to_ty (.uint n) reg with
        | none => rw [h1] at h; cases h
        | some x =>
          obtain ⟨sty, reg1⟩ := x
          rw [h1] at h
          dsimp only at h
          simp only [Option.some.injEq, Prod.mk.injEq] at h
          obtain ⟨hpt, hreg, hcache⟩ := h
          subst hpt; subst hreg; subst hcache
          obtain ⟨hx1, hwf1, hnest⟩ := primitive_to_ty_master h1
          refine ⟨rfl, extends_trans hx1 (get_or_register_ty_extends _ _), ?_⟩
          intro hwf _
          refine ⟨registryWF_get_or_register_ty (hwf1 hwf) ?_, get_or_register_ty_mem _ _⟩
          intro j hj
          rw [hnest] at hj
          cases hj
      case string =>
        dsimp only at h
        cases h1 : primitive_to_ty .string reg with
        | none => rw [h1] at h; cases h
        | some x =>
          obtain ⟨sty, reg1⟩ := x
          rw [h1] at h
          dsimp only at h
          simp only [Option.some.injEq, Prod.mk.injEq] at h
          obtain ⟨hpt, hreg, hcache⟩ := h
          subst hpt; subst hreg; subst hcache
          obtain ⟨hx1, hwf1, hnest⟩ := primitive_to_ty_master h1
          refine ⟨rfl, extends_trans hx1 (get_or_register_ty_extends _ _), ?_⟩
          intro hwf _
          refine ⟨registryWF_get_or_register_ty (hwf1 hwf) ?_, get_or_register_ty_mem _ _⟩
          intro j hj
          rw [hnest] at hj
          cases hj
      case array elem dims =>
        dsimp only at h
        cases h1 : resolve_ast fuel elem ns reg cache with
        | none => rw [h1] at h; cases h
        | some x =>
          obtain ⟨ty0, reg1, cache1⟩ := x
          rw [h1] at h
          dsimp only at h
          cases h2 : wrapDims dims ty0 reg1 with
          | none => rw [h2] at h; cases h
          | some y =>
            obtain ⟨pt2, reg2⟩ := y
            rw [h2] at h
            dsimp only at h
            simp only [Option.some.injEq, Prod.mk.injEq] at h
            obtain ⟨hpt, hreg, hcache⟩ := h
            subst hpt; subst hreg; subst hcache
            obtain ⟨hc1, hx1, hwf1⟩ := ih _ _ _ _ _ _ _ h1
            subst hc1
            obtain ⟨hx2, hwf2⟩ := wrapDims_master _ _ _ _ _ h2
            refine ⟨rfl, extends_trans hx1 hx2, ?_⟩
            intro hwf hcwf
            obtain ⟨hwfa, hmema⟩ := hwf1 hwf hcwf
            exact hwf2 hwfa hmema
      case bytes n =>
        dsimp only at h
        exact ih _ _ _ _ _ _ _ h
      case dynamicBytes =>
        dsimp only at h
        exact ih _ _ _ _ _ _ _ h
      case struct s =>
        dsimp only at h
        cases hs : ns.structs[s]? with
        | none => rw [hs] at h; cases h
        | some sdef =>
          rw [hs] at h
          dsimp only at h
          cases h1 : resolveStructFields (fun t r c => resolve_ast fuel t ns r c)
              sdef.fields reg cache with
          | none => rw [h1] at h; cases h
          | some x =>
            obtain ⟨fs, reg1, cache1⟩ := x
            rw [h1] at h
            dsimp only at h
            simp only [Option.some.injEq, Prod.mk.injEq] at h
            obtain ⟨hpt, hreg, hcache⟩ := h
            subst hpt; subst hreg; subst hcache
            obtain ⟨hc1, hx1, hwf1⟩ :=
              resolveStructFields_master _ (fun t r c p r' c' hr => ih t ns r c p r' c' hr)
                _ _ _ _ _ _ h1
            subst hc1
            refine ⟨rfl, extends_trans hx1 (get_or_register_ty_extends _ _), ?_⟩
            intro hwf hcwf
            obtain ⟨hwfa, hbound⟩ := hwf1 hwf hcwf
            refine ⟨registryWF_get_or_register_ty hwfa ?_, get_or_register_ty_mem _ _⟩
            intro j hj
            simp only [ScaleType.nestedIds, TypeDef.nestedIds, List.mem_map] at hj
            obtain ⟨fld, hfld, hj⟩ := hj
            subst hj
            exact hbound fld hfld
      case enum n =>
        dsimp only at h
        cases hd : ns.enums[n]? with
        | none => rw [hd] at h; cases h
        | some decl =>
          rw [hd] at h
          dsimp only at h
          simp only [Option.some.injEq, Prod.mk.injEq] at h
          obtain ⟨hpt, hreg, hcache⟩ := h
          subst hpt; subst hreg; subst hcache
          refine ⟨rfl, get_or_register_ty_extends _ _, ?_⟩
          intro hwf _
          refine ⟨registryWF_get_or_register_ty hwf ?_, get_or_register_ty_mem _ _⟩
          intro j hj
          simp only [ScaleType.nestedIds] at hj
          rw [enumVariants_nestedIds] at hj
          cases hj
      case ref t =>
        dsimp only at h
        exact ih _ _ _ _ _ _ _ h
      case storageRef imm t =>
        dsimp only at h
        exact ih _ _ _ _ _ _ _ h
      case internalFunction =>
        dsimp only at h
        exact ih _ _ _ _ _ _ _ h
      case externalFunction =>
        dsimp only at h
        cases h1 : resolveUnnamedFields (fun t r c => resolve_ast fuel t ns r c)
            [.address false, .uint 32] reg cache with
        | none => rw [h1] at h; cases h
        | some x =>
          obtain ⟨fs, reg1, cache1⟩ := x
          rw [h1] at h
          dsimp only at h
          simp only [Option.some.injEq, Prod.mk.injEq] at h
          obtain ⟨hpt, hreg, hcache⟩ := h
          subst hpt; subst hreg; subst hcache
          obtain ⟨hc1, hx1, hwf1⟩ :=
            resolveUnnamedFields_master _ (fun t r c p r' c' hr => ih t ns r c p r' c' hr)
              _ _ _ _ _ _ h1
          subst hc1
          refine ⟨rfl, extends_trans hx1 (get_or_register_ty_extends _ _), ?_⟩
          intro hwf hcwf
          obtain ⟨hwfa, hbound⟩ := hwf1 hwf hcwf
          refine ⟨registryWF_get_or_register_ty hwfa ?_, get_or_register_ty_mem _ _⟩
          intro j hj
          simp only [ScaleType.nestedIds, TypeDef.nestedIds, List.mem_map] at hj
          obtain ⟨fld, hfld, hj⟩ := hj
          subst hj
          exact hbound fld hfld
      case userType no =>
        dsimp only at h
        cases hu : ns.user_types[no]? with
        | none => rw [hu] at h; cases h
        | some ut =>
          rw [hu] at h
          dsimp only at h
          exact ih _ _ _ _ _ _ _ h
      case unsupported =>
        dsimp only at h
        cases h
/-! ## Arithmetic facts about the width search and the hex rendering -/

theorem npotAux_spec (n : Nat) : ∀ (fuel k : Nat), n ≤ 2 ^ (k + fuel) →
    ∃ j, k ≤ j ∧ npotAux n fuel k = 2 ^ j ∧ n ≤ 2 ^ j ∧
      ∀ m, k ≤ m → n ≤ 2 ^ m → j ≤ m := by
  intro fuel
  induction fuel with
  | zero =>
    intro k h
    rw [Nat.add_zero] at h
    exact ⟨k, Nat.le_refl _, rfl, h, fun m hm _ => hm⟩
  | succ fuel ih =>
    intro k h
    by_cases hk : n ≤ 2 ^ k
    · exact ⟨k, Nat.le_refl _, by simp [npotAux, hk], hk, fun m hm _ => hm⟩
    · have harr : k + (fuel + 1) = (k + 1) + fuel := by omega
      rw [harr] at h
      obtain ⟨j, hkj, heq, hle, hmin⟩ := ih (k + 1) h
      refine ⟨j, by omega, by simp [npotAux, hk, heq], hle, ?_⟩
      intro m hm hnm
      rcases Nat.eq_or_lt_of_le hm with heq' | hlt
      · exfalso
        rw [← heq'] at hnm
        exact hk hnm
      · exact hmin m hlt hnm

theorem next_power_of_two_spec (n : Nat) :
    ∃ j, next_power_of_two n = 2 ^ j ∧ n ≤ 2 ^ j ∧ ∀ m, n ≤ 2 ^ m → j ≤ m := by
  have h : n ≤ 2 ^ (0 + n) := by
    rw [Nat.zero_add]
    exact (Nat.lt_two_pow n).le
  obtain ⟨j, _, heq, hle, hmin⟩ := npotAux_spec n n 0 h
  exact ⟨j, heq, hle, fun m hm => hmin m (Nat.zero_le m) hm⟩

theorem next_power_of_two_pow (k : Nat) : next_power_of_two (2 ^ k) = 2 ^ k := by
  obtain ⟨j, heq, hle, hmin⟩ := next_power_of_two_spec (2 ^ k)
  have h1 : j ≤ k := hmin k (Nat.le_refl _)
  have h2 : k ≤ j := (Nat.pow_le_pow_iff_right (by omega)).mp hle
  rw [heq]
  congr 1
  omega

theorem next_power_of_two_bounds {n : Nat} (h8 : 8 ≤ n) (h256 : n ≤ 256) :
    ∃ k, 3 ≤ k ∧ k ≤ 8 ∧ next_power_of_two n = 2 ^ k := by
  obtain ⟨j, heq, hle, hmin⟩ := next_power_of_two_spec n
  refine ⟨j, ?_, ?_, heq⟩
  · have h3 : (2 : Nat) ^ 3 ≤ 2 ^ j := le_trans h8 hle
    exact (Nat.pow_le_pow_iff_right (by omega)).mp h3
  · exact hmin 8 (by omega)

theorem next_power_of_two_large {n : Nat} (h : 256 < n) : 256 < next_power_of_two n := by
  obtain ⟨j, heq, hle, _⟩ := next_power_of_two_spec n
  rw [heq]
  omega

theorem prim_of_scalety_none {signed : Bool} {w : Nat} (h : 256 < w) :
    prim_of_scalety signed w = none := by
  unfold prim_of_scalety
  split
  all_goals first | rfl | omega

/-- Observation: the bit width of a primitive integer kind. -/
def primWidth : TypeDefPrimitive → Nat
  | .u8 => 8 | .u16 => 16 | .u32 => 32 | .u64 => 64 | .u128 => 128 | .u256 => 256
  | .i8 => 8 | .i16 => 16 | .i32 => 32 | .i64 => 64 | .i128 => 128 | .i256 => 256
  | .bool => 1 | .str => 0

/-- Observation: whether a primitive integer kind is signed. -/
def primSigned : TypeDefPrimitive → Bool
  | .i8 | .i16 | .i32 | .i64 | .i128 | .i256 => true
  | _ => false

theorem prim_of_scalety_pow {signed : Bool} {k : Nat} (h3 : 3 ≤ k) (h8 : k ≤ 8) :
    ∃ p, prim_of_scalety signed (2 ^ k) = some p ∧
      primWidth p = 2 ^ k ∧ primSigned p = signed := by
  interval_cases k <;> cases signed <;> exact ⟨_, rfl, rfl, rfl⟩

theorem hexVal_append (l : List Char) (c : Char) :
    hexVal (l ++ [c]) = 16 * hexVal l + hexDigitVal c := by
  simp [hexVal, List.foldl_append]
  omega

theorem hexDigitVal_hexDigit {d : Nat} (h : d < 16) : hexDigitVal (hexDigit d) = d := by
  interval_cases d <;> rfl

theorem hexVal_hexAux : ∀ (fuel n : Nat), n ≤ fuel → hexVal (hexAux fuel n) = n := by
  intro fuel
  induction fuel with
  | zero =>
    intro n h
    have hz : n = 0 := by omega
    subst hz
    rfl
  | succ fuel ih =>
    intro n h
    by_cases hn : n = 0
    · subst hn
      simp [hexAux, hexVal]
    · have hrec : n / 16 ≤ fuel := by
        have := Nat.div_lt_self (Nat.pos_of_ne_zero hn) (by omega : 1 < 16)
        omega
      simp only [hexAux, hn, if_false]
      rw [hexVal_append, ih _ hrec, hexDigitVal_hexDigit (Nat.mod_lt n (by omega))]
      omega

theorem hexVal_replicate_zero : ∀ (k : Nat) (s : List Char),
    hexVal (List.replicate k '0' ++ s) = hexVal s := by
  intro k
  induction k with
  | zero => intro s; rfl
  | succ k ih =>
    intro s
    rw [List.replicate_succ, List.cons_append]
    show hexVal (List.replicate k '0' ++ s) = hexVal s
    exact ih s

theorem hexVal_format064X (n : Nat) : hexVal (format064X n) = n := by
  unfold format064X
  rw [hexVal_replicate_zero]
  unfold hexStr
  by_cases hn : n = 0
  · subst hn; rfl
  · simp only [hn, if_false]
    exact hexVal_hexAux n n (Nat.le_refl n)

theorem bigint_to_u32_ofNat {m : Nat} (h : m < 2 ^ 32) :
    bigint_to_u32 ((m : Nat) : Int) = some m := by
  unfold bigint_to_u32
  rw [if_pos]
  · simp
  · constructor
    · exact Int.ofNat_nonneg m
    · exact_mod_cast h

/-- C3: every integer source type with a valid Solidity width (8 ≤ n ≤ 256)
resolves to the primitive of width `next_power_of_two n` with signedness
preserved, so a width that is already a power of two maps to the primitive
of exactly that width and all other widths are widened up; every width
beyond 256 is a resolution failure (the source's `unreachable` panic on the
unsupported scale type string). -/
theorem c3_integer_widths :
    (∀ (n : Nat) (reg : PortableRegistry), 8 ≤ n → n ≤ 256 →
      ∃ pu pi,
        int_to_ty (.uint n) reg =
          some ({ path := [], type_params := [], type_def := .primitive pu, docs := [] },
            (get_or_register_ty
              { path := [], type_params := [], type_def := .primitive pu, docs := [] } reg).2) ∧
        int_to_ty (.int n) reg =
          some ({ path := [], type_params := [], type_def := .primitive pi, docs := [] },
            (get_or_register_ty
              { path := [], type_params := [], type_def := .primitive pi, docs := [] } reg).2) ∧
        primSigned pu = false ∧ primSigned pi = true ∧
        primWidth pu = next_power_of_two n ∧ primWidth pi = next_power_of_two n ∧
        (∀ k, n = 2 ^ k → primWidth pu = n ∧ primWidth pi = n)) ∧
    (∀ (n : Nat) (reg : PortableRegistry), 256 < n →
      int_to_ty (.uint n) reg = none ∧ int_to_ty (.int n) reg = none) := by
  constructor
  · intro n reg h8 h256
    obtain ⟨k, hk3, hk8, hnp⟩ := next_power_of_two_bounds h8 h256
    obtain ⟨pu, hpu, hwu, hsu⟩ := @prim_of_scalety_pow false _ hk3 hk8
    obtain ⟨pi, hpi, hwi, hsi⟩ := @prim_of_scalety_pow true _ hk3 hk8
    refine ⟨pu, pi, ?_, ?_, hsu, hsi, by rw [hwu, hnp], by rw [hwi, hnp], ?_⟩
    · simp only [int_to_ty, hnp, hpu]
    · simp only [int_to_ty, hnp, hpi]
    · intro m hm
      subst hm
      rw [next_power_of_two_pow] at hnp
      constructor
      · rw [hwu, hnp]
      · rw [hwi, hnp]
  · intro n reg h
    have hl := next_power_of_two_large h
    have hn : prim_of_scalety false (next_power_of_two n) = none := prim_of_scalety_none hl
    have hn2 : prim_of_scalety true (next_power_of_two n) = none := prim_of_scalety_none hl
    constructor
    · simp only [int_to_ty, hn]
    · simp only [int_to_ty, hn2]

/-- The 32-bit unsigned primitive entry, for concrete statements. -/
def u32ScaleTy : ScaleType :=
  { path := [], type_params := [], type_def := .primitive .u32, docs := [] }

/-- Witness for C3 at the spec's own test values: width 24 widens to the
32-bit unsigned primitive, width 128 stays at 128 bits, width 300 fails. -/
theorem c3_integer_widths_witness :
    (8 ≤ 24 ∧ 24 ≤ 256) ∧ (256 < 300) ∧
    next_power_of_two 24 = 32 ∧ next_power_of_two 128 = 128 ∧
    int_to_ty (.uint 300) { types := [] } = none ∧
    int_to_ty (.uint 24) { types := [] } =
      some (u32ScaleTy, { types := [{ id := 0, ty := u32ScaleTy }] }) := by
  refine ⟨⟨by decide, by decide⟩, by decide, by decide, by decide,
    (c3_integer_widths.2 300 { types := [] } (by decide)).1, ?_⟩
  obtain ⟨pu, pi, hu, hint, hs, hsi, hwu, hwi, hpow⟩ :=
    c3_integer_widths.1 24 { types := [] } (by decide) (by decide)
  have h24 : next_power_of_two 24 = 32 := by decide
  rw [h24] at hwu
  have hpu : pu = TypeDefPrimitive.u32 := by
    cases pu <;> first | rfl | (exfalso; simp [primWidth, primSigned] at hwu hs)
  rw [hpu] at hu
  rw [hu]
  rfl

/-! ## Concrete fixtures for witnesses -/

/-- The 8-bit unsigned primitive entry, for concrete statements. -/
def u8ScaleTy : ScaleType :=
  { path := [], type_params := [], type_def := .primitive .u8, docs := [] }

/-- A get-style public view message of one `u8` return value. -/
def getFn : Function :=
  { name := "get", mutability := .view, visibility := .public, ty := .function
  , contract_no := some 0, params := [], returns := [{ id := none, ty := .uint 8 }]
  , selector := [1, 2, 3, 4], docs := "" }

/-- A contract with one included storage variable, one mapping variable
(excluded from the layout) and one public message. -/
def contract0 : Contract :=
  { name := "c", layout := [{ contract_no := 0, var_no := 0, slot := 0, ty := .uint 8 },
      { contract_no := 0, var_no := 1, slot := 5, ty := .unsupported }]
  , vars := [{ name := "counter", ty := .uint 8 }, { name := "balances", ty := .unsupported }]
  , functions := [0], all_functions := [0], default_constructor := none
  , sends_events := [], is_library := false, docs := "" }

/-- A small concrete namespace exercising every resolution arm used by the
witnesses: an enum declared out of discriminant order, a two-field struct, a
24-bit user alias and one contract; the mapping predicate marks exactly the
`unsupported` placeholder type. -/
def ns0 : Namespace :=
  { address_length := 32
  , enums := [{ values := [("C", 2), ("A", 0), ("B", 1)] }]
  , structs := [{ fields := [{ name := "a", ty := .uint 32 }, { name := "b", ty := .bool }] }]
  , user_types := [{ ty := .uint 24 }]
  , contracts := [contract0]
  , functions := [getFn]
  , events := []
  , contains_mapping := fun t => t = AstType.unsupported
  , fits_in_memory := fun _ => true }

/-- C2: the resolution cache is consulted but never populated: every
successful `resolve_ast` run started with the empty cache (the only state
`gen_project` ever constructs) returns the cache unchanged, so a later
resolution of the same source type finds no cache hit. -/
theorem c2_cache_never_populated :
    ∀ (fuel : Nat) (ty : AstType) (ns : Namespace) (reg : PortableRegistry)
      (pt : PortableType) (reg' : PortableRegistry) (cache' : Cache),
      resolve_ast fuel ty ns reg [] = some (pt, reg', cache') →
      cache' = [] ∧ cacheGet cache' ty = none := by
  intro fuel ty ns reg pt reg' cache' h
  have hcc := (resolve_ast_master fuel ty ns reg [] pt reg' cache' h).1
  subst hcc
  exact ⟨rfl, rfl⟩

/-- Witness for C2: resolving `uint8` returns the empty cache, so the
second resolution of `uint8` misses the cache. -/
theorem c2_cache_never_populated_witness :
    resolve_ast 9 (.uint 8) ns0 { types := [] } [] =
      some ({ id := 0, ty := u8ScaleTy }, { types := [{ id := 0, ty := u8ScaleTy }] }, []) ∧
    (([] : Cache) = [] ∧ cacheGet [] (.uint 8) = none) :=
  ⟨by decide, c2_cache_never_populated 9 (.uint 8) ns0 { types := [] }
    { id := 0, ty := u8ScaleTy } { types := [{ id := 0, ty := u8ScaleTy }] } [] (by decide)⟩

/-- C6: references, storage references and user-type aliases are
transparent: resolving them is literally the resolution of the referenced
type (at one fuel step less, reflecting the direct tail call), so the same
registry entry is returned and no wrapper entry is created. -/
theorem c6_transparency :
    ∀ (fuel : Nat) (t : AstType) (ns : Namespace) (reg : PortableRegistry) (cache : Cache)
      (imm : Bool) (no : Nat) (ut : UserTypeDecl),
      (cacheGet cache (.ref t) = none →
        resolve_ast (fuel + 1) (.ref t) ns reg cache = resolve_ast fuel t ns reg cache) ∧
      (cacheGet cache (.storageRef imm t) = none →
        resolve_ast (fuel + 1) (.storageRef imm t) ns reg cache =
          resolve_ast fuel t ns reg cache) ∧
      (cacheGet cache (.userType no) = none → ns.user_types[no]? = some ut →
        resolve_ast (fuel + 1) (.userType no) ns reg cache =
          resolve_ast fuel ut.ty ns reg cache) := by
  intro fuel t ns reg cache imm no ut
  refine ⟨?_, ?_, ?_⟩
  · intro hc
    show resolve_ast_body (fun a r c => resolve_ast fuel a ns r c) (.ref t) ns reg cache = _
    unfold resolve_ast_body
    rw [hc]
  · intro hc
    show resolve_ast_body (fun a r c => resolve_ast fuel a ns r c)
      (.storageRef imm t) ns reg cache = _
    unfold resolve_ast_body
    rw [hc]
  · intro hc hu
    show resolve_ast_body (fun a r c => resolve_ast fuel a ns r c)
      (.userType no) ns reg cache = _
    unfold resolve_ast_body
    rw [hc]
    dsimp only
    rw [hu]

/-- Witness for C6: a reference to `bool` and the user alias for `uint24`
resolve exactly as their underlying types do. -/
theorem c6_transparency_witness :
    (cacheGet [] (.ref .bool) = none ∧
      resolve_ast 6 (.ref .bool) ns0 { types := [] } [] =
        resolve_ast 5 .bool ns0 { types := [] } []) ∧
    (cacheGet [] (.userType 0) = none ∧ ns0.user_types[0]? = some { ty := .uint 24 } ∧
      resolve_ast 6 (.userType 0) ns0 { types := [] } [] =
        resolve_ast 5 (.uint 24) ns0 { types := [] } []) :=
  ⟨⟨rfl, (c6_transparency 5 .bool ns0 { types := [] } [] false 0 { ty := .uint 24 }).1 rfl⟩,
   ⟨rfl, by decide,
    (c6_transparency 5 .bool ns0 { types := [] } [] false 0 { ty := .uint 24 }).2.2
      rfl (by decide)⟩⟩

/-- The boolean primitive entry, for concrete statements. -/
def boolScaleTy : ScaleType :=
  { path := [], type_params := [], type_def := .primitive .bool, docs := [] }

/-- The registry after resolving struct 0 of `ns0`, for concrete
statements. -/
def structSty0 : ScaleType :=
  { path := [], type_params := []
  , type_def := .composite [{ name := some "a", ty := 0, type_name := none, docs := [] },
      { name := some "b", ty := 1, type_name := none, docs := [] }]
  , docs := [] }

def structPt0 : PortableType := { id := 2, ty := structSty0 }

def structReg0 : PortableRegistry :=
  { types := [{ id := 0, ty := u32ScaleTy }, { id := 1, ty := boolScaleTy }, structPt0] }

instance (reg : PortableRegistry) : Decidable (RegistryWF reg) := by
  unfold RegistryWF
  infer_instance

/-- C1: the registry invariant of one resolution pass.  `get_or_register_ty`
returns the first structurally equal entry when one is present (registry
unchanged) and otherwise appends a fresh entry whose id is its 0-based
position; and every successful `resolve_ast` run on a well-formed registry
leaves the registry well-formed (ids are positions, no two entries are
structurally equal, every nested id is strictly below the entry's own id,
so the registry is acyclic), only appends to it, and returns one of its
entries. -/
theorem c1_registry_invariant :
    (∀ (ty : ScaleType) (reg : PortableRegistry) (t : PortableType),
      reg.types.find? (fun e => e.ty = ty) = some t →
        get_or_register_ty ty reg = (t, reg)) ∧
    (∀ (ty : ScaleType) (reg : PortableRegistry),
      (∀ e ∈ reg.types, e.ty ≠ ty) →
        get_or_register_ty ty reg =
          ({ id := reg.types.length, ty := ty },
           { types := reg.types ++ [{ id := reg.types.length, ty := ty }] })) ∧
    (∀ (fuel : Nat) (ty : AstType) (ns : Namespace) (reg : PortableRegistry)
      (pt : PortableType) (reg' : PortableRegistry) (cache' : Cache),
      RegistryWF reg →
      resolve_ast fuel ty ns reg [] = some (pt, reg', cache') →
      RegistryWF reg' ∧ (∃ ext, reg'.types = reg.types ++ ext) ∧ pt ∈ reg'.types) := by
  refine ⟨fun ty reg t h => get_or_register_ty_found h,
          fun ty reg h => get_or_register_ty_not_found h, ?_⟩
  intro fuel ty ns reg pt reg' cache' hwf h
  obtain ⟨hc, hx, hwfp⟩ := resolve_ast_master fuel ty ns reg [] pt reg' cache' h
  obtain ⟨hwf', hm⟩ := hwfp hwf (cacheWF_nil reg)
  exact ⟨hwf', hx, hm⟩

/-- Witness for C1: resolving the two-field struct of `ns0` from the empty
(well-formed) registry yields a well-formed three-entry registry extending
it, containing the returned composite entry. -/
theorem c1_registry_invariant_witness :
    RegistryWF { types := [] } ∧
    (RegistryWF structReg0 ∧
      (∃ ext, structReg0.types = ({ types := [] } : PortableRegistry).types ++ ext) ∧
      structPt0 ∈ structReg0.types) :=
  ⟨by decide,
   c1_registry_invariant.2.2 9 (.struct 0) ns0 { types := [] } structPt0 structReg0 []
     (by decide) (by decide)⟩

theorem insertSorted_perm (le : α → α → Bool) (a : α) :
    ∀ l : List α, (insertSorted le a l).Perm (a :: l) := by
  intro l
  induction l with
  | nil => exact List.Perm.refl _
  | cons b l ih =>
    unfold insertSorted
    by_cases hle : le a b
    · rw [if_pos hle]
    · rw [if_neg hle]
      exact (ih.cons b).trans (List.Perm.swap a b l)

theorem insertionSort_perm (le : α → α → Bool) :
    ∀ l : List α, (insertionSort le l).Perm l := by
  intro l
  induction l with
  | nil => exact List.Perm.refl _
  | cons a l ih =>
    unfold insertionSort
    exact (insertSorted_perm le a (insertionSort le l)).trans (ih.cons a)

theorem insertSorted_pairwise {le : α → α → Bool}
    (htrans : ∀ a b c, le a b = true → le b c = true → le a c = true)
    (htotal : ∀ a b, (le a b || le b a) = true) (a : α) :
    ∀ l : List α, List.Pairwise (fun x y => le x y = true) l →
      List.Pairwise (fun x y => le x y = true) (insertSorted le a l) := by
  intro l
  induction l with
  | nil =>
    intro _
    exact List.pairwise_singleton _ _
  | cons b l ih =>
    intro hp
    rw [List.pairwise_cons] at hp
    obtain ⟨hb, hl⟩ := hp
    unfold insertSorted
    by_cases hle : le a b
    · rw [if_pos hle]
      rw [List.pairwise_cons]
      refine ⟨?_, List.pairwise_cons.mpr ⟨hb, hl⟩⟩
      intro x hx
      rcases List.mem_cons.mp hx with hx | hx
      · subst hx; exact hle
      · exact htrans a b x hle (hb x hx)
    · rw [if_neg hle]
      have hba : le b a = true := by
        have := htotal a b
        rw [Bool.or_eq_true] at this
        rcases this with h | h
        · exact absurd h hle
        · exact h
      rw [List.pairwise_cons]
      refine ⟨?_, ih hl⟩
      intro x hx
      have hmem := (insertSorted_perm le a l).mem_iff.mp hx
      rcases List.mem_cons.mp hmem with hx' | hx'
      · subst hx'; exact hba
      · exact hb x hx'

theorem insertionSort_pairwise {le : α → α → Bool}
    (htrans : ∀ a b c, le a b = true → le b c = true → le a c = true)
    (htotal : ∀ a b, (le a b || le b a) = true) :
    ∀ l : List α, List.Pairwise (fun x y => le x y = true) (insertionSort le l) := by
  intro l
  induction l with
  | nil => exact List.Pairwise.nil
  | cons a l ih =>
    unfold insertionSort
    exact insertSorted_pairwise htrans htotal a _ ih

theorem resolve_ast_succ (fuel : Nat) (ty : AstType) (ns : Namespace)
    (reg : PortableRegistry) (cache : Cache) :
    resolve_ast (fuel + 1) ty ns reg cache =
      resolve_ast_body (fun t r c => resolve_ast fuel t ns r c) ty ns reg cache := rfl

theorem cacheGet_nil (ty : AstType) : cacheGet [] ty = none := rfl

/-- C5: an enum resolves to a variant entry listing the declared variants in
ascending discriminant order (a permutation of the declaration), each
discriminant preserved exactly (Solidity enums have at most 256 variants,
the hypothesis below) and each variant payload-free. -/
theorem c5_enum_sorted :
    ∀ (fuel : Nat) (ns : Namespace) (n : Nat) (reg : PortableRegistry)
      (decl : EnumDecl) (pt : PortableType) (reg' : PortableRegistry) (cache' : Cache),
      ns.enums[n]? = some decl →
      (∀ kv ∈ decl.values, kv.2 < 256) →
      resolve_ast (fuel + 1) (.enum n) ns reg [] = some (pt, reg', cache') →
      ∃ vs, pt.ty = { path := [], type_params := [], type_def := .variant vs, docs := [] } ∧
        vs.Perm (decl.values.map
          (fun kv => { name := kv.1, fields := [], index := kv.2, docs := [] })) ∧
        List.Pairwise (fun (a b : Variant) => a.index ≤ b.index) vs ∧
        ∀ v ∈ vs, v.fields = [] := by
  intro fuel ns n reg decl pt reg' cache' hd hlt h
  rw [resolve_ast_succ] at h
  unfold resolve_ast_body at h
  rw [cacheGet_nil] at h
  dsimp only at h
  rw [hd] at h
  dsimp only at h
  simp only [Option.some.injEq, Prod.mk.injEq] at h
  obtain ⟨hpt, hreg, hcache⟩ := h
  subst hpt
  refine ⟨enumVariants decl.values, get_or_register_ty_ty _ _, ?_, ?_, ?_⟩
  · have hperm := insertionSort_perm (fun a b : String × Nat => decide (a.2 ≤ b.2)) decl.values
    have hmap := hperm.map
      (fun kv : String × Nat => ({ name := kv.1, fields := [], index := kv.2 % 256, docs := [] } : Variant))
    have hcongr : decl.values.map
        (fun kv : String × Nat => ({ name := kv.1, fields := [], index := kv.2 % 256, docs := [] } : Variant)) =
      decl.values.map
        (fun kv : String × Nat => ({ name := kv.1, fields := [], index := kv.2, docs := [] } : Variant)) := by
      apply List.map_congr_left
      intro kv hkv
      have := hlt kv hkv
      simp [Nat.mod_eq_of_lt this]
    rw [hcongr] at hmap
    exact hmap
  · rw [enumVariants, List.pairwise_map]
    have htrans : ∀ (a b c : String × Nat),
        (fun x y : String × Nat => decide (x.2 ≤ y.2)) a b = true →
        (fun x y : String × Nat => decide (x.2 ≤ y.2)) b c = true →
        (fun x y : String × Nat => decide (x.2 ≤ y.2)) a c = true := by
      intro a b c hab hbc
      simp only [decide_eq_true_eq] at hab hbc ⊢
      omega
    have htotal : ∀ (a b : String × Nat),
        ((fun x y : String × Nat => decide (x.2 ≤ y.2)) a b ||
          (fun x y : String × Nat => decide (x.2 ≤ y.2)) b a) = true := by
      intro a b
      simp only [Bool.or_eq_true, decide_eq_true_eq]
      omega
    have hsorted := insertionSort_pairwise htrans htotal decl.values
    refine hsorted.imp_of_mem ?_
    intro a b ha hb hab
    simp only [decide_eq_true_eq] at hab
    have hperm2 := insertionSort_perm (fun x y : String × Nat => decide (x.2 ≤ y.2)) decl.values
    have h256a := hlt a (hperm2.mem_iff.mp ha)
    have h256b := hlt b (hperm2.mem_iff.mp hb)
    simp only [Nat.mod_eq_of_lt h256a, Nat.mod_eq_of_lt h256b]
    exact hab
  · intro v hv
    rw [enumVariants] at hv
    obtain ⟨kv, _, hkv⟩ := List.mem_map.mp hv
    rw [← hkv]

/-- The variant entry resolving enum 0 of `ns0`, for concrete statements. -/
def enumSty0 : ScaleType :=
  { path := [], type_params := []
  , type_def := .variant [{ name := "A", fields := [], index := 0, docs := [] },
      { name := "B", fields := [], index := 1, docs := [] },
      { name := "C", fields := [], index := 2, docs := [] }]
  , docs := [] }

/-- Witness for C5: the enum declared `{C: 2, A: 0, B: 1}` resolves to the
variant list `[A(0), B(1), C(2)]`. -/
theorem c5_enum_sorted_witness :
    ns0.enums[0]? = some { values := [("C", 2), ("A", 0), ("B", 1)] } ∧
    (∀ kv ∈ ({ values := [("C", 2), ("A", 0), ("B", 1)] } : EnumDecl).values, kv.2 < 256) ∧
    resolve_ast 5 (.enum 0) ns0 { types := [] } [] =
      some ({ id := 0, ty := enumSty0 }, { types := [{ id := 0, ty := enumSty0 }] }, []) ∧
    (∃ vs, ({ id := 0, ty := enumSty0 } : PortableType).ty =
        { path := [], type_params := [], type_def := .variant vs, docs := [] } ∧
      vs.Perm (({ values := [("C", 2), ("A", 0), ("B", 1)] } : EnumDecl).values.map
        (fun kv => { name := kv.1, fields := [], index := kv.2, docs := [] })) ∧
      List.Pairwise (fun (a b : Variant) => a.index ≤ b.index) vs ∧
      ∀ v ∈ vs, v.fields = []) :=
  ⟨by decide, by decide, by decide,
   c5_enum_sorted 4 ns0 0 { types := [] } { values := [("C", 2), ("A", 0), ("B", 1)] }
     { id := 0, ty := enumSty0 } { types := [{ id := 0, ty := enumSty0 }] } []
     (by decide) (by decide) (by decide)⟩

/-- The single-field composite wrapping an address-array entry. -/
def addressCompositeSty (aid : Nat) : ScaleType :=
  { path := [], type_params := []
  , type_def := .composite [{ name := none, ty := aid, type_name := none, docs := [] }]
  , docs := [] }

theorem resolve_ast_body_array
    (res : AstType → PortableRegistry → Cache →
      Option (PortableType × PortableRegistry × Cache))
    (elem : AstType) (dims : List ArrayLength) (ns : Namespace)
    (reg : PortableRegistry) (cache : Cache)
    (hc : cacheGet cache (.array elem dims) = none) :
    resolve_ast_body res (.array elem dims) ns reg cache =
      match res elem reg cache with
      | none => none
      | some (ty0, registry, cache) =>
        match wrapDims dims ty0 registry with
        | none => none
        | some (pt, registry) => some (pt, registry, cache) := by
  unfold resolve_ast_body
  rw [hc]

theorem resolve_ast_body_uint
    (res : AstType → PortableRegistry → Cache →
      Option (PortableType × PortableRegistry × Cache))
    (n : Nat) (ns : Namespace) (reg : PortableRegistry) (cache : Cache)
    (hc : cacheGet cache (.uint n) = none) :
    resolve_ast_body res (.uint n) ns reg cache =
      match primitive_to_ty (.uint n) reg with
      | none => none
      | some (sty, registry) =>
        some ((get_or_register_ty sty registry).1, (get_or_register_ty sty registry).2, cache) := by
  unfold resolve_ast_body
  rw [hc]

theorem resolve_ast_body_address
    (res : AstType → PortableRegistry → Cache →
      Option (PortableType × PortableRegistry × Cache))
    (b : Bool) (ns : Namespace) (reg : PortableRegistry) (cache : Cache)
    (hc : cacheGet cache (.address b) = none) :
    resolve_ast_body res (.address b) ns reg cache =
      match res (.array (.uint 8) [.fixed ((ns.address_length % 256 : Nat) : Int)]) reg cache with
      | none => none
      | some (address_ty, registry, cache) =>
        some ((get_or_register_ty (addressCompositeSty address_ty.id) registry).1,
          (get_or_register_ty (addressCompositeSty address_ty.id) registry).2, cache) := by
  unfold resolve_ast_body
  rw [hc]
  rfl

theorem resolve_ast_body_externalFunction
    (res : AstType → PortableRegistry → Cache →
      Option (PortableType × PortableRegistry × Cache))
    (ns : Namespace) (reg : PortableRegistry) (cache : Cache)
    (hc : cacheGet cache .externalFunction = none) :
    resolve_ast_body res .externalFunction ns reg cache =
      match resolveUnnamedFields res [.address false, .uint 32] reg cache with
      | none => none
      | some (fields, registry, cache) =>
        some ((get_or_register_ty
            { path := [], type_params := [], type_def := .composite fields, docs := [] } registry).1,
          (get_or_register_ty
            { path := [], type_params := [], type_def := .composite fields, docs := [] } registry).2,
          cache) := by
  unfold resolve_ast_body
  rw [hc]

theorem resolve_ast_body_internalFunction
    (res : AstType → PortableRegistry → Cache →
      Option (PortableType × PortableRegistry × Cache))
    (ns : Namespace) (reg : PortableRegistry) (cache : Cache)
    (hc : cacheGet cache .internalFunction = none) :
    resolve_ast_body res .internalFunction ns reg cache = res (.uint 8) reg cache := by
  unfold resolve_ast_body
  rw [hc]


theorem resolve_uint8_shape (f : Nat) (ns : Namespace) (reg : PortableRegistry)
    (ptU : PortableType) (regU : PortableRegistry) (cU : Cache)
    (h : resolve_ast f (.uint 8) ns reg [] = some (ptU, regU, cU)) :
    ptU.ty = u8ScaleTy ∧ ptU ∈ regU.types := by
  cases f with
  | zero => simp [resolve_ast] at h
  | succ f3 =>
    rw [resolve_ast_succ] at h
    rw [resolve_ast_body_uint _ _ _ _ _ (cacheGet_nil _)] at h
    have h8 : next_power_of_two 8 = 8 := by decide
    have hprim : primitive_to_ty (.uint 8) reg =
        some (u8ScaleTy, (get_or_register_ty u8ScaleTy reg).2) := by
      unfold primitive_to_ty int_to_ty
      dsimp only
      rw [h8]
      rfl
    rw [hprim] at h
    dsimp only at h
    simp only [Option.some.injEq, Prod.mk.injEq] at h
    obtain ⟨hptU, hregU, _⟩ := h
    constructor
    · rw [← hptU]
      exact get_or_register_ty_ty _ _
    · rw [← hptU, ← hregU]
      exact get_or_register_ty_mem _ _

theorem wrapDims_single_fixed (L : Nat) (hL : L < 2 ^ 32) (ty0 : PortableType)
    (reg : PortableRegistry) :
    wrapDims [ArrayLength.fixed ((L : Nat) : Int)] ty0 reg =
      some ((get_or_register_ty
          { path := [], type_params := [], type_def := .array L ty0.id, docs := [] } reg).1,
        (get_or_register_ty
          { path := [], type_params := [], type_def := .array L ty0.id, docs := [] } reg).2) := by
  rw [wrapDims, bigint_to_u32_ofNat hL]
  dsimp only
  rw [wrapDims]

theorem resolve_ast_zero (ty : AstType) (ns : Namespace) (reg : PortableRegistry)
    (cache : Cache) : resolve_ast 0 ty ns reg cache = none := rfl

theorem resolve_array_step (f2 : Nat) (elem : AstType) (dims : List ArrayLength)
    (ns : Namespace) (reg : PortableRegistry) (ptU : PortableType)
    (regU : PortableRegistry) (cU : Cache)
    (h2 : resolve_ast f2 elem ns reg [] = some (ptU, regU, cU)) :
    resolve_ast (f2 + 1) (.array elem dims) ns reg [] =
      match wrapDims dims ptU regU with
      | none => none
      | some (pt, registry) => some (pt, registry, cU) := by
  rw [resolve_ast_succ, resolve_ast_body_array _ _ _ _ _ _ (cacheGet_nil _), h2]

theorem resolve_array_step_none (f2 : Nat) (elem : AstType) (dims : List ArrayLength)
    (ns : Namespace) (reg : PortableRegistry)
    (h2 : resolve_ast f2 elem ns reg [] = none) :
    resolve_ast (f2 + 1) (.array elem dims) ns reg [] = none := by
  rw [resolve_ast_succ, resolve_ast_body_array _ _ _ _ _ _ (cacheGet_nil _), h2]

theorem resolve_u8_array_shape (f L : Nat) (hL : L < 2 ^ 32) (ns : Namespace)
    (reg : PortableRegistry) (aty : PortableType) (reg1 : PortableRegistry) (c1 : Cache)
    (h : resolve_ast f (.array (.uint 8) [.fixed ((L : Nat) : Int)]) ns reg [] =
      some (aty, reg1, c1)) :
    ∃ uid, aty.ty =
        { path := [], type_params := [], type_def := .array L uid, docs := [] } ∧
      ∃ e, e ∈ reg1.types ∧ e.id = uid ∧ e.ty = u8ScaleTy := by
  cases f with
  | zero => rw [resolve_ast_zero] at h; cases h
  | succ f2 =>
    cases h2 : resolve_ast f2 (.uint 8) ns reg [] with
    | none =>
      rw [resolve_array_step_none f2 _ _ ns reg h2] at h
      cases h
    | some y =>
      obtain ⟨ptU, regU, cU⟩ := y
      rw [resolve_array_step f2 _ _ ns reg ptU regU cU h2] at h
      rw [wrapDims_single_fixed L hL] at h
      simp only [Option.some.injEq, Prod.mk.injEq] at h
      obtain ⟨haty, hreg1, hc⟩ := h
      obtain ⟨hu8, hmem⟩ := resolve_uint8_shape f2 ns reg ptU regU cU h2
      refine ⟨ptU.id, ?_, ptU, ?_, rfl, hu8⟩
      · rw [← haty]
        exact get_or_register_ty_ty _ _
      · refine mem_of_extends ?_ hmem
        rw [← hreg1]
        exact get_or_register_ty_extends _ _

/-- C10: payable addresses, non-payable addresses and every contract
reference resolve identically (the arm ignores the payability flag and the
contract number), producing a single-field composite wrapping a fixed
array of `address_length` (cast to `u8`) 8-bit unsigned integers. -/
theorem c10_address_contract :
    ∀ (fuel : Nat) (ns : Namespace) (reg : PortableRegistry) (b b' : Bool) (k k' : Nat),
      (resolve_ast (fuel + 1) (.address b) ns reg [] =
        resolve_ast (fuel + 1) (.contract k) ns reg []) ∧
      (resolve_ast (fuel + 1) (.address b) ns reg [] =
        resolve_ast (fuel + 1) (.address b') ns reg []) ∧
      (resolve_ast (fuel + 1) (.contract k) ns reg [] =
        resolve_ast (fuel + 1) (.contract k') ns reg []) ∧
      (∀ (pt : PortableType) (reg' : PortableRegistry) (cache' : Cache),
        RegistryWF reg →
        resolve_ast (fuel + 1) (.address b) ns reg [] = some (pt, reg', cache') →
        ∃ (aty : PortableType) (reg1 : PortableRegistry),
          resolve_ast fuel
            (.array (.uint 8) [.fixed ((ns.address_length % 256 : Nat) : Int)]) ns reg [] =
            some (aty, reg1, []) ∧
          pt.ty = addressCompositeSty aty.id ∧
          (∃ uid, aty.ty.type_def = .array (ns.address_length % 256) uid ∧
            ∃ e, reg'.types[uid]? = some e ∧ e.ty = u8ScaleTy)) := by
  intro fuel ns reg b b' k k'
  refine ⟨?_, ?_, ?_, ?_⟩
  · rw [resolve_ast_succ, resolve_ast_succ]
    unfold resolve_ast_body
    rw [cacheGet_nil (AstType.address b), cacheGet_nil (AstType.contract k)]
  · rw [resolve_ast_succ, resolve_ast_succ]
    unfold resolve_ast_body
    rw [cacheGet_nil (AstType.address b), cacheGet_nil (AstType.address b')]
  · rw [resolve_ast_succ, resolve_ast_succ]
    unfold resolve_ast_body
    rw [cacheGet_nil (AstType.contract k), cacheGet_nil (AstType.contract k')]
  intro pt reg' cache' hwf h
  have horig := h
  obtain ⟨hcagain, hxall, hwfp⟩ :=
    resolve_ast_master (fuel + 1) (.address b) ns reg [] pt reg' cache' horig
  have hwfR : RegistryWF reg' := (hwfp hwf (cacheWF_nil reg)).1
  rw [resolve_ast_succ] at h
  rw [resolve_ast_body_address _ _ _ _ _ (cacheGet_nil _)] at h
  cases h1 : resolve_ast fuel
      (.array (.uint 8) [.fixed ((ns.address_length % 256 : Nat) : Int)]) ns reg [] with
  | none => rw [h1] at h; cases h
  | some x =>
    obtain ⟨aty, reg1, cache1⟩ := x
    have hcc : cache1 = [] :=
      (resolve_ast_master fuel _ ns reg [] aty reg1 cache1 h1).1
    subst hcc
    rw [h1] at h
    dsimp only at h
    simp only [Option.some.injEq, Prod.mk.injEq] at h
    obtain ⟨hpt, hreg, hcache⟩ := h
    have hL : ns.address_length % 256 < 2 ^ 32 := by
      have := Nat.mod_lt ns.address_length (show 0 < 256 by omega)
      omega
    obtain ⟨uid, hshape, e, hemem, heid, hety⟩ :=
      resolve_u8_array_shape fuel (ns.address_length % 256) hL ns reg aty reg1 [] h1
    refine ⟨aty, reg1, rfl, ?_, uid, ?_, e, ?_, hety⟩
    · rw [← hpt]
      exact get_or_register_ty_ty _ _
    · rw [hshape]
    · have hm : e ∈ reg'.types := by
        refine mem_of_extends ?_ hemem
        rw [← hreg]
        exact get_or_register_ty_extends _ _
      have := hwfR.mem_lookup hm
      rw [heid] at this
      exact this.2

/-- Witness for C10: in `ns0` (address width 32), a payable address, a
non-payable address and a contract reference all resolve to the same
single-field composite entry wrapping `[u8; 32]`. -/
theorem c10_address_contract_witness :
    (resolve_ast 9 (.address true) ns0 { types := [] } [] =
      resolve_ast 9 (.contract 0) ns0 { types := [] } []) ∧
    (resolve_ast 9 (.address true) ns0 { types := [] } [] =
      resolve_ast 9 (.address false) ns0 { types := [] } []) :=
  ⟨((c10_address_contract 8 ns0 { types := [] } true false 0 1).1 : _),
   ((c10_address_contract 8 ns0 { types := [] } true false 0 1).2.1 : _)⟩

/-- The two-field composite an external function reference lowers to. -/
def externalFnCompositeSty (aid sid : Nat) : ScaleType :=
  { path := [], type_params := []
  , type_def := .composite
      [{ name := none, ty := aid, type_name := none, docs := [] },
       { name := none, ty := sid, type_name := none, docs := [] }]
  , docs := [] }

/-- Observation: whether a type definition is a composite. -/
def TypeDef.isCompositeB : TypeDef → Bool
  | .composite _ => true
  | _ => false

/-- Counterexample to C8 as stated: an internal function reference does not
lower to a two-field composite; it resolves to the 8-bit unsigned primitive
entry. -/
theorem c8_counterexample :
    resolve_ast 9 .internalFunction ns0 { types := [] } [] =
      some ({ id := 0, ty := u8ScaleTy }, { types := [{ id := 0, ty := u8ScaleTy }] }, []) ∧
    TypeDef.isCompositeB u8ScaleTy.type_def = false := by
  constructor
  · decide
  · decide

theorem resolveUnnamedFields_nil
    (res : AstType → PortableRegistry → Cache →
      Option (PortableType × PortableRegistry × Cache))
    (reg : PortableRegistry) (cache : Cache) :
    resolveUnnamedFields res [] reg cache = some ([], reg, cache) := rfl

theorem resolveUnnamedFields_cons
    (res : AstType → PortableRegistry → Cache →
      Option (PortableType × PortableRegistry × Cache))
    (t : AstType) (rest : List AstType) (reg : PortableRegistry) (cache : Cache)
    (ptX : PortableType) (regX : PortableRegistry) (cX : Cache)
    (h : res t reg cache = some (ptX, regX, cX)) :
    resolveUnnamedFields res (t :: rest) reg cache =
      match resolveUnnamedFields res rest regX cX with
      | none => none
      | some (fs, registry, cache2) =>
        some ({ name := none, ty := ptX.id, type_name := none, docs := [] } :: fs,
          registry, cache2) := by
  rw [resolveUnnamedFields, h]

theorem resolveUnnamedFields_cons_none
    (res : AstType → PortableRegistry → Cache →
      Option (PortableType × PortableRegistry × Cache))
    (t : AstType) (rest : List AstType) (reg : PortableRegistry) (cache : Cache)
    (h : res t reg cache = none) :
    resolveUnnamedFields res (t :: rest) reg cache = none := by
  rw [resolveUnnamedFields, h]

/-- C8 (amended): an external function reference lowers to a two-field
composite of the (non-payable) address-like type and the 32-bit unsigned
selector placeholder, while an internal function reference lowers directly
to the resolution of the 8-bit unsigned integer type. -/
theorem c8_function_reference_lowering :
    (∀ (fuel : Nat) (ns : Namespace) (reg : PortableRegistry) (cache : Cache),
      cacheGet cache .internalFunction = none →
      resolve_ast (fuel + 1) .internalFunction ns reg cache =
        resolve_ast fuel (.uint 8) ns reg cache) ∧
    (∀ (fuel : Nat) (ns : Namespace) (reg : PortableRegistry) (pt : PortableType)
      (reg' : PortableRegistry) (cache' : Cache),
      resolve_ast (fuel + 1) .externalFunction ns reg [] = some (pt, reg', cache') →
      ∃ pta reg1 ptu reg2,
        resolve_ast fuel (.address false) ns reg [] = some (pta, reg1, []) ∧
        resolve_ast fuel (.uint 32) ns reg1 [] = some (ptu, reg2, []) ∧
        pt.ty = externalFnCompositeSty pta.id ptu.id) := by
  constructor
  · intro fuel ns reg cache hc
    rw [resolve_ast_succ, resolve_ast_body_internalFunction _ _ _ _ hc]
  · intro fuel ns reg pt reg' cache' h
    rw [resolve_ast_succ] at h
    rw [resolve_ast_body_externalFunction _ _ _ _ (cacheGet_nil _)] at h
    cases ha : resolve_ast fuel (.address false) ns reg [] with
    | none =>
      rw [resolveUnnamedFields_cons_none _ _ _ _ _ ha] at h
      cases h
    | some ya =>
      obtain ⟨pta, reg1, c1⟩ := ya
      have hc1 : c1 = [] := (resolve_ast_master fuel _ ns reg [] pta reg1 c1 ha).1
      subst hc1
      cases hb : resolve_ast fuel (.uint 32) ns reg1 [] with
      | none =>
        have hru : resolveUnnamedFields (fun t r c => resolve_ast fuel t ns r c)
            [.address false, .uint 32] reg [] = none := by
          rw [resolveUnnamedFields_cons _ _ _ _ _ _ _ _ ha,
            resolveUnnamedFields_cons_none _ _ _ _ _ hb]
        rw [hru] at h
        cases h
      | some yb =>
        obtain ⟨ptu, reg2, c2⟩ := yb
        have hc2 : c2 = [] := (resolve_ast_master fuel _ ns reg1 [] ptu reg2 c2 hb).1
        subst hc2
        have hru : resolveUnnamedFields (fun t r c => resolve_ast fuel t ns r c)
            [.address false, .uint 32] reg [] =
            some ([{ name := none, ty := pta.id, type_name := none, docs := [] },
              { name := none, ty := ptu.id, type_name := none, docs := [] }], reg2, []) := by
          rw [resolveUnnamedFields_cons _ _ _ _ _ _ _ _ ha,
            resolveUnnamedFields_cons _ _ _ _ _ _ _ _ hb,
            resolveUnnamedFields_nil]
        rw [hru] at h
        simp only [Option.some.injEq, Prod.mk.injEq] at h
        obtain ⟨hpt, hreg, hcache⟩ := h
        refine ⟨pta, reg1, ptu, reg2, rfl, hb, ?_⟩
        rw [← hpt]
        exact get_or_register_ty_ty _ _

/-- The registry and entry resolving an external function reference in
`ns0`, for concrete statements. -/
def extFnReg0 : PortableRegistry :=
  { types := [{ id := 0, ty := u8ScaleTy },
      { id := 1, ty := { path := [], type_params := [], type_def := .array 32 0, docs := [] } },
      { id := 2, ty := addressCompositeSty 1 },
      { id := 3, ty := u32ScaleTy },
      { id := 4, ty := externalFnCompositeSty 2 3 }] }

def extFnPt0 : PortableType := { id := 4, ty := externalFnCompositeSty 2 3 }

/-- Witness for the amended C8: in `ns0`, the internal-function resolution
equals the `uint8` resolution, and the external-function resolution is the
two-field composite over the address composite and the `u32` primitive. -/
theorem c8_function_reference_lowering_witness :
    (cacheGet [] .internalFunction = none ∧
      resolve_ast 9 .internalFunction ns0 { types := [] } [] =
        resolve_ast 8 (.uint 8) ns0 { types := [] } []) ∧
    (∃ pta reg1 ptu reg2,
      resolve_ast 8 (.address false) ns0 { types := [] } [] = some (pta, reg1, []) ∧
      resolve_ast 8 (.uint 32) ns0 reg1 [] = some (ptu, reg2, []) ∧
      extFnPt0.ty = externalFnCompositeSty pta.id ptu.id) :=
  ⟨⟨rfl, c8_function_reference_lowering.1 8 ns0 { types := [] } [] rfl⟩,
   c8_function_reference_lowering.2 8 ns0 { types := [] } extFnPt0 extFnReg0 []
     (by decide)⟩

/-- A bare composite entry over the given fields, as the spec builder and
the struct arm build it. -/
def compositeSty (fields : List Field) : ScaleType :=
  { path := [], type_params := [], type_def := .composite fields, docs := [] }

/-- A type spec over a registry id with the default (empty) display path. -/
def typeSpecOf (n : Nat) : TypeSpecM := { ty := n, display_name := [] }

theorem resolveReturnFields_master (fuel : Nat) (ns : Namespace) :
    ∀ (rets : List Parameter) (reg : PortableRegistry) (cache : Cache)
      (fs : List Field) (reg' : PortableRegistry) (cache' : Cache),
      resolveReturnFields fuel ns rets reg cache = some (fs, reg', cache') →
      cache' = cache ∧ (∃ ext, reg'.types = reg.types ++ ext) ∧
        (RegistryWF reg → CacheWF cache reg →
          RegistryWF reg' ∧ ∀ fld ∈ fs, fld.ty < reg'.types.length) := by
  intro rets
  induction rets with
  | nil =>
    intro reg cache fs reg' cache' h
    simp only [resolveReturnFields, Option.some.injEq, Prod.mk.injEq] at h
    obtain ⟨h1, h2, h3⟩ := h
    subst h1; subst h2; subst h3
    exact ⟨rfl, ⟨[], by simp⟩, fun hwf _ => ⟨hwf, by simp⟩⟩
  | cons r rest ih =>
    intro reg cache fs reg' cache' h
    simp only [resolveReturnFields] at h
    cases h1 : resolve_ast fuel r.ty ns reg cache with
    | none => rw [h1] at h; cases h
    | some x =>
      obtain ⟨fty, reg1, cache1⟩ := x
      rw [h1] at h
      dsimp only at h
      cases h2 : resolveReturnFields fuel ns rest reg1 cache1 with
      | none => rw [h2] at h; cases h
      | some y =>
        obtain ⟨fs1, reg2, cache2⟩ := y
        rw [h2] at h
        dsimp only at h
        simp only [Option.some.injEq, Prod.mk.injEq] at h
        obtain ⟨hfs, hreg, hcache⟩ := h
        subst hfs; subst hreg; subst hcache
        obtain ⟨hc1, hx1, hwf1⟩ := resolve_ast_master fuel _ ns reg cache fty reg1 cache1 h1
        subst hc1
        obtain ⟨hc2, hx2, hwf2⟩ := ih _ _ _ _ _ h2
        subst hc2
        refine ⟨rfl, extends_trans hx1 hx2, ?_⟩
        intro hwf hcwf
        obtain ⟨hwfa, hmema⟩ := hwf1 hwf hcwf
        obtain ⟨hwfb, hbound⟩ := hwf2 hwfa (cacheWF_extend hcwf hx1)
        refine ⟨hwfb, ?_⟩
        intro fld hfld
        rcases List.mem_cons.mp hfld with hhd | htl
        · subst hhd
          have := (hwfa.mem_lookup hmema).1
          have hlen := types_length_le_of_extends hx2
          simp only []
          omega
        · exact hbound fld htl

theorem resolveReturnFields_names (fuel : Nat) (ns : Namespace) :
    ∀ (rets : List Parameter) (reg : PortableRegistry) (cache : Cache)
      (fs : List Field) (reg' : PortableRegistry) (cache' : Cache),
      resolveReturnFields fuel ns rets reg cache = some (fs, reg', cache') →
      List.Forall₂ (fun (r : Parameter) (fld : Field) =>
        fld.name = r.id ∧ fld.type_name = some "") rets fs := by
  intro rets
  induction rets with
  | nil =>
    intro reg cache fs reg' cache' h
    simp only [resolveReturnFields, Option.some.injEq, Prod.mk.injEq] at h
    obtain ⟨h1, _, _⟩ := h
    subst h1
    exact List.Forall₂.nil
  | cons r rest ih =>
    intro reg cache fs reg' cache' h
    simp only [resolveReturnFields] at h
    cases h1 : resolve_ast fuel r.ty ns reg cache with
    | none => rw [h1] at h; cases h
    | some x =>
      obtain ⟨fty, reg1, cache1⟩ := x
      rw [h1] at h
      dsimp only at h
      cases h2 : resolveReturnFields fuel ns rest reg1 cache1 with
      | none => rw [h2] at h; cases h
      | some y =>
        obtain ⟨fs1, reg2, cache2⟩ := y
        rw [h2] at h
        dsimp only at h
        simp only [Option.some.injEq, Prod.mk.injEq] at h
        obtain ⟨hfs, hreg, hcache⟩ := h
        subst hfs
        exact List.Forall₂.cons ⟨rfl, rfl⟩ (ih _ _ _ _ _ h2)

theorem message_ret_spec_single (fuel : Nat) (ns : Namespace) (r : Parameter)
    (reg : PortableRegistry) (cache : Cache) :
    message_ret_spec fuel ns [r] reg cache =
      match resolve_ast fuel r.ty ns reg cache with
      | none => none
      | some (pt, reg2, c2) => some (some (typeSpecOf pt.id), reg2, c2) := rfl

theorem message_ret_spec_multi (fuel : Nat) (ns : Namespace) (r1 r2 : Parameter)
    (rest : List Parameter) (reg : PortableRegistry) (cache : Cache) :
    message_ret_spec fuel ns (r1 :: r2 :: rest) reg cache =
      match resolveReturnFields fuel ns (r1 :: r2 :: rest) reg cache with
      | none => none
      | some (fields, registry, cache2) =>
        some (some (typeSpecOf (get_or_register_ty (compositeSty fields) registry).1.id),
          (get_or_register_ty (compositeSty fields) registry).2, cache2) := rfl

/-- In a well-formed registry no other entry is structurally equal to a
member entry. -/
theorem registryWF_unique {reg : PortableRegistry} {pt : PortableType}
    (hwf : RegistryWF reg) (hm : pt ∈ reg.types) :
    ∀ i (h : i < reg.types.length), reg.types[i].ty = pt.ty → reg.types[i] = pt := by
  intro i hi hty
  obtain ⟨hlt, hlook⟩ := hwf.mem_lookup hm
  have hpt : reg.types[pt.id] = pt := by
    rw [List.getElem?_eq_getElem hlt] at hlook
    exact Option.some.inj hlook
  obtain ⟨hid, hpw, hnest⟩ := hwf
  rcases Nat.lt_trichotomy i pt.id with hlt' | heq | hgt
  · exfalso
    have hne := List.pairwise_iff_getElem.mp hpw i pt.id hi hlt hlt'
    rw [hpt] at hne
    exact hne hty
  · subst heq
    exact hpt
  · exfalso
    have hne := List.pairwise_iff_getElem.mp hpw pt.id i hlt hi hgt
    rw [hpt] at hne
    exact hne hty.symm

/-- C4: the message return spec.  No returns yield no spec; a single return
yields its resolved registry id directly; two or more returns synthesize a
composite entry whose fields are the resolved returns in declared order,
named as in the source (with the empty rendered display path as
`type_name`), registered in the current registry (fresh whenever no equal
entry exists) and structurally equal to no other entry of the final
registry. -/
theorem c4_message_return_spec :
    (∀ (fuel : Nat) (ns : Namespace) (reg : PortableRegistry) (cache : Cache),
      message_ret_spec fuel ns [] reg cache = some (none, reg, cache)) ∧
    (∀ (fuel : Nat) (ns : Namespace) (r : Parameter) (reg : PortableRegistry)
      (cache : Cache) (pt : PortableType) (reg' : PortableRegistry) (cache' : Cache),
      resolve_ast fuel r.ty ns reg cache = some (pt, reg', cache') →
      message_ret_spec fuel ns [r] reg cache =
        some (some (typeSpecOf pt.id), reg', cache')) ∧
    (∀ (fuel : Nat) (ns : Namespace) (r1 r2 : Parameter) (rest : List Parameter)
      (reg : PortableRegistry) (ret : Option TypeSpecM) (reg' : PortableRegistry)
      (cache' : Cache),
      RegistryWF reg →
      message_ret_spec fuel ns (r1 :: r2 :: rest) reg [] = some (ret, reg', cache') →
      ∃ fields reg1 pt,
        resolveReturnFields fuel ns (r1 :: r2 :: rest) reg [] = some (fields, reg1, []) ∧
        ret = some (typeSpecOf pt.id) ∧
        pt.ty = compositeSty fields ∧
        pt ∈ reg'.types ∧
        (∃ ext, reg1.types = reg.types ++ ext) ∧
        List.Forall₂ (fun (r : Parameter) (fld : Field) =>
          fld.name = r.id ∧ fld.type_name = some "") (r1 :: r2 :: rest) fields ∧
        (∀ i (h : i < reg'.types.length), reg'.types[i].ty = pt.ty → reg'.types[i] = pt) ∧
        ((∀ t ∈ reg1.types, t.ty ≠ compositeSty fields) → pt.id = reg1.types.length)) := by
  refine ⟨fun fuel ns reg cache => rfl, ?_, ?_⟩
  · intro fuel ns r reg cache pt reg' cache' h
    rw [message_ret_spec_single, h]
  · intro fuel ns r1 r2 rest reg ret reg' cache' hwf h
    rw [message_ret_spec_multi] at h
    cases hrf : resolveReturnFields fuel ns (r1 :: r2 :: rest) reg [] with
    | none => rw [hrf] at h; cases h
    | some y =>
      obtain ⟨fields, reg1, c1⟩ := y
      have hc1 : c1 = [] :=
        (resolveReturnFields_master fuel ns _ reg [] fields reg1 c1 hrf).1
      subst hc1
      rw [hrf] at h
      simp only [Option.some.injEq, Prod.mk.injEq] at h
      obtain ⟨hret, hreg, hcache⟩ := h
      obtain ⟨_, hx1, hwf1⟩ := resolveReturnFields_master fuel ns _ reg [] fields reg1 [] hrf
      obtain ⟨hwfa, hbound⟩ := hwf1 hwf (cacheWF_nil reg)
      have hids : ∀ j ∈ ScaleType.nestedIds (compositeSty fields), j < reg1.types.length := by
        intro j hj
        simp only [compositeSty, ScaleType.nestedIds, TypeDef.nestedIds, List.mem_map] at hj
        obtain ⟨fld, hfld, hj⟩ := hj
        subst hj
        exact hbound fld hfld
      have hwfR : RegistryWF reg' := by
        rw [← hreg]
        exact registryWF_get_or_register_ty hwfa hids
      have hmem : (get_or_register_ty (compositeSty fields) reg1).1 ∈ reg'.types := by
        rw [← hreg]
        exact get_or_register_ty_mem _ _
      refine ⟨fields, reg1, (get_or_register_ty (compositeSty fields) reg1).1, rfl,
        hret.symm, get_or_register_ty_ty _ _, hmem, hx1,
        resolveReturnFields_names fuel ns _ reg [] fields reg1 [] hrf,
        registryWF_unique hwfR hmem, ?_⟩
      intro hfresh
      rw [get_or_register_ty_not_found hfresh]

/-- The two return parameters `(uint32 x, bool)` and their synthesized
fields and registry, for concrete statements. -/
def retParams0 : List Parameter :=
  [{ id := some "x", ty := .uint 32 }, { id := none, ty := .bool }]

def retFields0 : List Field :=
  [{ name := some "x", ty := 0, type_name := some "", docs := [] },
   { name := none, ty := 1, type_name := some "", docs := [] }]

def retReg0 : PortableRegistry :=
  { types := [{ id := 0, ty := u32ScaleTy }, { id := 1, ty := boolScaleTy },
      { id := 2, ty := compositeSty retFields0 }] }

/-- Witness for C4: a message returning `(uint32 x, bool)` synthesizes a
fresh two-field composite at id 2 and uses it as the single return spec. -/
theorem c4_message_return_spec_witness :
    RegistryWF { types := [] } ∧
    message_ret_spec 9 ns0 retParams0 { types := [] } [] =
      some (some (typeSpecOf 2), retReg0, []) ∧
    (∃ fields reg1 pt,
      resolveReturnFields 9 ns0 retParams0 { types := [] } [] = some (fields, reg1, []) ∧
      some (typeSpecOf 2) = some (typeSpecOf pt.id) ∧
      pt.ty = compositeSty fields ∧
      pt ∈ retReg0.types ∧
      (∃ ext, reg1.types = ({ types := [] } : PortableRegistry).types ++ ext) ∧
      List.Forall₂ (fun (r : Parameter) (fld : Field) =>
        fld.name = r.id ∧ fld.type_name = some "") retParams0 fields ∧
      (∀ i (h : i < retReg0.types.length), retReg0.types[i].ty = pt.ty →
        retReg0.types[i] = pt) ∧
      ((∀ t ∈ reg1.types, t.ty ≠ compositeSty fields) →
        pt.id = reg1.types.length)) :=
  ⟨by decide, by decide,
   c4_message_return_spec.2.2 9 ns0 { id := some "x", ty := .uint 32 }
     { id := none, ty := .bool } [] { types := [] } (some (typeSpecOf 2)) retReg0 []
     (by decide) (by decide)⟩

/-- The layout entries `gen_project` keeps: the variable exists and neither
contains a mapping nor overflows the memory bound. -/
def layout_kept (ns : Namespace) (L : List LayoutVar) : List (LayoutVar × Variable) :=
  L.filterMap (fun l =>
    match ns.contracts[l.contract_no]? with
    | none => none
    | some c =>
      match c.vars[l.var_no]? with
      | none => none
      | some var =>
        if !ns.contains_mapping var.ty && ns.fits_in_memory var.ty then some (l, var)
        else none)

theorem from_hex32_some {s k : List Char} (h : from_hex32 s = some k) :
    k = s ∧ s.length = 64 := by
  unfold from_hex32 at h
  by_cases hl : s.length = 64
  · rw [if_pos hl] at h
    exact ⟨(Option.some.inj h).symm, hl⟩
  · rw [if_neg hl] at h
    cases h

/-- The per-cell property of C7: name from the variable, key the 64-digit
big-endian hex rendering of the slot, type id from a resolution of the
layout entry's type. -/
def LayoutCellSpec (fuel : Nat) (ns : Namespace) (lv : LayoutVar × Variable)
    (f : FieldLayoutM) : Prop :=
  f.name = lv.2.name ∧
  f.layout.key = format064X lv.1.slot ∧
  (format064X lv.1.slot).length = 64 ∧
  hexVal (format064X lv.1.slot) = lv.1.slot ∧
  ∃ reg₁ cache₁ pt reg₂ cache₂,
    resolve_ast fuel lv.1.ty ns reg₁ cache₁ = some (pt, reg₂, cache₂) ∧
    f.layout.ty = pt.id

/-- C7: the storage layout. Variables whose type contains a mapping or does
not fit in memory are silently excluded; every other layout entry yields
exactly one cell, in declaration order, named after the variable, keyed by
the 64-hex-digit big-endian rendering of its slot and typed by the resolved
registry id; `gen_project` wraps the cells as the one top-level composite
layout. -/
theorem c7_storage_layout :
    (∀ (fuel : Nat) (ns : Namespace) (L : List LayoutVar) (reg : PortableRegistry)
      (cache : Cache) (fs : List FieldLayoutM) (reg' : PortableRegistry) (cache' : Cache),
      build_layout_fields fuel ns L reg cache = some (fs, reg', cache') →
      List.Forall₂ (LayoutCellSpec fuel ns) (layout_kept ns L) fs) ∧
    (∀ (fuel contract_no : Nat) (ns : Namespace) (p : InkProjectM),
      gen_project fuel contract_no ns = some p →
      ∃ c fs reg1 cache1,
        ns.contracts[contract_no]? = some c ∧
        build_layout_fields fuel ns c.layout { types := [] } [] = some (fs, reg1, cache1) ∧
        p.layout = { fields := fs }) := by
  constructor
  · intro fuel ns L
    induction L with
    | nil =>
      intro reg cache fs reg' cache' h
      simp only [build_layout_fields, Option.some.injEq, Prod.mk.injEq] at h
      obtain ⟨h1, _, _⟩ := h
      subst h1
      exact List.Forall₂.nil
    | cons l rest ih =>
      intro reg cache fs reg' cache' h
      simp only [build_layout_fields] at h
      cases hc : ns.contracts[l.contract_no]? with
      | none => rw [hc] at h; cases h
      | some c =>
        rw [hc] at h
        dsimp only at h
        cases hv : c.vars[l.var_no]? with
        | none => rw [hv] at h; cases h
        | some var =>
          rw [hv] at h
          dsimp only at h
          cases hkeep : !ns.contains_mapping var.ty && ns.fits_in_memory var.ty with
          | false =>
            rw [hkeep] at h
            simp only [Bool.false_eq_true, if_false] at h
            have hk : layout_kept ns (l :: rest) = layout_kept ns rest := by
              unfold layout_kept
              rw [List.filterMap_cons]
              simp [hc, hv, hkeep]
            rw [hk]
            exact ih _ _ _ _ _ h
          | true =>
            rw [hkeep] at h
            simp only [if_true] at h
            cases hhex : from_hex32 (format064X l.slot) with
            | none => rw [hhex] at h; cases h
            | some key =>
              rw [hhex] at h
              dsimp only at h
              cases hres : resolve_ast fuel l.ty ns reg cache with
              | none => rw [hres] at h; cases h
              | some x =>
                obtain ⟨pt, reg1, cache1⟩ := x
                rw [hres] at h
                dsimp only at h
                cases hrest : build_layout_fields fuel ns rest reg1 cache1 with
                | none => rw [hrest] at h; cases h
                | some y =>
                  obtain ⟨fs1, reg2, cache2⟩ := y
                  rw [hrest] at h
                  dsimp only at h
                  simp only [Option.some.injEq, Prod.mk.injEq] at h
                  obtain ⟨hfs, hreg, hcache⟩ := h
                  subst hfs
                  have hk : layout_kept ns (l :: rest) = (l, var) :: layout_kept ns rest := by
                    unfold layout_kept
                    rw [List.filterMap_cons]
                    simp [hc, hv, hkeep]
                  rw [hk]
                  obtain ⟨hkey, hlen⟩ := from_hex32_some hhex
                  refine List.Forall₂.cons ⟨rfl, ?_, hlen, hexVal_format064X _, ?_⟩
                    (ih _ _ _ _ _ hrest)
                  · exact hkey
                  · exact ⟨reg, cache, pt, reg1, cache1, hres, rfl⟩
  · intro fuel contract_no ns p h
    unfold gen_project gen_project_from at h
    cases hc : ns.contracts[contract_no]? with
    | none => rw [hc] at h; cases h
    | some c =>
      rw [hc] at h
      dsimp only at h
      cases hb : build_layout_fields fuel ns c.layout { types := [] } [] with
      | none => rw [hb] at h; cases h
      | some x =>
        obtain ⟨fields, reg1, cache1⟩ := x
        rw [hb] at h
        dsimp only at h
        refine ⟨c, fields, reg1, cache1, rfl, hb, ?_⟩
        cases h1 : constructor_funcs c.functions ns with
        | none => rw [h1] at h; cases h
        | some ctors =>
          rw [h1] at h
          dsimp only at h
          cases h2 : threadMap (f_to_constructor fuel ns)
              (ctors ++ match c.default_constructor with | some e => [e] | none => [])
              reg1 cache1 with
          | none => rw [h2] at h; cases h
          | some y =>
            obtain ⟨ctorSpecs, reg2, cache2⟩ := y
            rw [h2] at h
            dsimp only at h
            cases h3 : message_funcs c.all_functions ns with
            | none => rw [h3] at h; cases h
            | some mfs =>
              rw [h3] at h
              dsimp only at h
              cases h4 : threadMap (f_to_message fuel ns) (mfs.filter message_filter)
                  reg2 cache2 with
              | none => rw [h4] at h; cases h
              | some z =>
                obtain ⟨msgs, reg3, cache3⟩ := z
                rw [h4] at h
                dsimp only at h
                cases h5 : c.sends_events.mapM (fun i => ns.events[i]?) with
                | none => rw [h5] at h; cases h
                | some evts =>
                  rw [h5] at h
                  dsimp only at h
                  cases h6 : threadMap (e_to_evt fuel ns) evts reg3 cache3 with
                  | none => rw [h6] at h; cases h
                  | some w =>
                    obtain ⟨evtSpecs, reg4, cache4⟩ := w
                    rw [h6] at h
                    dsimp only at h
                    simp only [Option.some.injEq] at h
                    rw [← h]

/-- The layout cells produced for `contract0`: the mapping variable is
dropped, the counter keeps slot 0 rendered as 64 hex zeros. -/
def fs0c7 : List FieldLayoutM :=
  [{ name := "counter", layout := { key := format064X 0, ty := 0 } }]

/-- The registry after laying out `contract0`: just the `u8` entry. -/
def reg0c7 : PortableRegistry := { types := [{ id := 0, ty := u8ScaleTy }] }

/-- The full project generated for `contract0`. -/
def projC7 : InkProjectM :=
  { layout := { fields := fs0c7 }
  , spec :=
      { constructors := []
      , messages :=
          [{ label := "get", selector := [1, 2, 3, 4], mutates := false
           , payable := false, args := [], ret := some (typeSpecOf 0), docs := [""] }]
      , events := [], docs := [""] }
  , registry := reg0c7 }

theorem c7_storage_layout_witness :
    (build_layout_fields 9 ns0 contract0.layout { types := [] } [] =
        some (fs0c7, reg0c7, []) ∧
      List.Forall₂ (LayoutCellSpec 9 ns0) (layout_kept ns0 contract0.layout) fs0c7) ∧
    (gen_project 9 0 ns0 = some projC7 ∧
      ∃ c fs reg1 cache1,
        ns0.contracts[0]? = some c ∧
        build_layout_fields 9 ns0 c.layout { types := [] } [] = some (fs, reg1, cache1) ∧
        projC7.layout = { fields := fs }) :=
  ⟨⟨by decide, c7_storage_layout.1 9 ns0 contract0.layout { types := [] } [] fs0c7 reg0c7 []
      (by decide)⟩,
   by decide, c7_storage_layout.2 9 0 ns0 projC7 (by decide)⟩

/-- A sample pure serializer of descriptor documents, standing in for the
JSON rendering that the embedding treats as an external pure collaborator. -/
def serC9 : Option InkProjectM → List Nat :=
  fun o => o.elim [] (fun p =>
    [p.registry.types.length, p.spec.messages.length, p.spec.constructors.length,
     p.layout.fields.length])

/-- C9: determinism. Running the whole pipeline twice on the same program
model, each time from a fresh (empty) registry and a fresh (empty) cache,
yields the same descriptor, hence byte-identical output under every pure
serializer; `gen_project` is exactly such a fresh-state run. -/
theorem c9_determinism (ser : Option InkProjectM → List Nat)
    (fuel contract_no : Nat) (ns : Namespace)
    (reg1 reg2 : PortableRegistry) (cache1 cache2 : Cache)
    (h1 : reg1 = { types := [] }) (h2 : reg2 = { types := [] })
    (h3 : cache1 = []) (h4 : cache2 = []) :
    gen_project_from fuel contract_no ns reg1 cache1 =
      gen_project_from fuel contract_no ns reg2 cache2 ∧
    ser (gen_project_from fuel contract_no ns reg1 cache1) =
      ser (gen_project_from fuel contract_no ns reg2 cache2) ∧
    gen_project fuel contract_no ns = gen_project_from fuel contract_no ns reg1 cache1 := by
  subst h1 h2 h3 h4
  exact ⟨rfl, rfl, rfl⟩

theorem c9_determinism_witness :
    gen_project_from 9 0 ns0 { types := [] } [] =
      gen_project_from 9 0 ns0 { types := [] } [] ∧
    serC9 (gen_project_from 9 0 ns0 { types := [] } []) =
      serC9 (gen_project_from 9 0 ns0 { types := [] } []) ∧
    gen_project 9 0 ns0 = gen_project_from 9 0 ns0 { types := [] } [] :=
  c9_determinism serC9 9 0 ns0 { types := [] } { types := [] } [] [] rfl rfl rfl rfl

end Substrate
